import Mathlib

/-!
Shallow embedding of the session transcript reconstruction and
live-streaming state machine of `src/src/services/copilot-service.ts`
(the full SDK-backed variant of `CopilotService`) together with the
webview message handler of `src/webview/src/App.tsx`.

JavaScript conventions are modelled explicitly:
  * a possibly-`undefined` field is an `Option`;
  * `a || b` on strings is `jsOrO` / `jsOrStr` (`some ""` is falsy);
  * `Date.now()` and `Math.random()` are supplied by an explicit
    `Oracle`, sampled at successive tick indices (all `Date.now()`
    calls within one object construction are modelled as one tick);
  * JavaScript `Map` is an insertion-ordered association list.
-/

namespace Copilot

/-- JS truthiness of a possibly-undefined string (`undefined` and `""` are falsy). -/
def truthy : Option String → Bool
  | some s => s ≠ ""
  | none => false

/-- JS `a || b` on possibly-undefined strings. -/
def jsOrO (a b : Option String) : Option String :=
  if truthy a then a else b

/-- The string value of a possibly-undefined string (used where JS would
coerce after a truthiness test; `none` never survives `truthy`). -/
def jsS : Option String → String
  | some s => s
  | none => ""

/-- JS `a || d` where the result is used as a string. -/
def jsOrStr (a : Option String) (d : String) : String :=
  if truthy a then jsS a else d

/-- Roles of chat messages. -/
inductive Role where
  | user
  | assistant
deriving DecidableEq

/-- Error object attached to a failed tool completion (`data.error`). -/
structure ErrObj where
  message : Option String := none
deriving DecidableEq

/-- Tool result payload fields read by `createToolEvent`. -/
structure ToolResult where
  content : Option String := none
  linesAdded : Option Nat := none
  linesRemoved : Option Nat := none
deriving DecidableEq

/-- Tool argument fields read by `createToolEvent` / `extractFilePath`. -/
structure ToolArgs where
  path : Option String := none
  AbsolutePath : Option String := none
  TargetFile : Option String := none
  file : Option String := none
  filePath : Option String := none
  File : Option String := none
  FilePath : Option String := none
  content : Option String := none
  command : Option String := none
  CommandLine : Option String := none
  query : Option String := none
  pattern : Option String := none
  Query : Option String := none
  Pattern : Option String := none
  DirectoryPath : Option String := none
  directory : Option String := none
  dir : Option String := none
deriving DecidableEq

/-- The flat bag of optional payload fields carried by a session event
(`event.data` in the source; every field may be absent). -/
structure EventData where
  content : Option String := none
  deltaContent : Option String := none
  toolName : Option String := none
  toolCallId : Option String := none
  arguments : Option ToolArgs := none
  success : Option Bool := none
  result : Option ToolResult := none
  error : Option ErrObj := none
  newModel : Option String := none
  model : Option String := none
  selectedModel : Option String := none
  message : Option String := none
  tokenLimit : Nat := 0
  currentTokens : Nat := 0
  messagesLength : Nat := 0
deriving DecidableEq

/-- A session event: a `type` tag plus a payload bag (as in the source,
where `SessionEvent` is untyped and dispatch is on `event.type`). -/
structure SEvent where
  type : String
  data : EventData := {}
deriving DecidableEq

/-- Output tool event record built by `createToolEvent`. -/
structure ToolEventOut where
  id : String
  toolCallId : String
  toolName : String
  status : String
  label : String
  details : Option String
  timestamp : Nat
deriving DecidableEq

/-- Output chat message (`ChatMessage` of `types/messages`); `toolEvents`
is `none` where the source leaves the field `undefined`. -/
structure ChatMessage where
  id : String
  role : Role
  content : String
  timestamp : Nat
  model : Option String := none
  toolEvents : Option (List ToolEventOut) := none
deriving DecidableEq

/-- Explicit source of `Date.now()` values and `Math.random()` id
suffixes, indexed by sampling tick. -/
structure Oracle where
  now : Nat → Nat
  rand : Nat → String

/-- `isInternalTool` of the source: fixed allow-list of backend-internal
tool names (argument may be `undefined` at call sites). -/
def internalTools : List String := ["report_intent", "suggest_mode"]

def isInternalTool (toolName : Option String) : Bool :=
  match toolName with
  | some t => internalTools.contains t
  | none => false

/-- Whitespace characters recognized by JS `String.prototype.trim` (the
ones that can occur in this model). -/
def isWS (c : Char) : Bool :=
  c = ' ' ∨ c = Char.ofNat 9 ∨ c = Char.ofNat 10 ∨ c = Char.ofNat 13

/-- JS `s.trim()` (kernel-computable implementation over the char list). -/
def jsTrim (s : String) : String :=
  String.mk (((s.toList.dropWhile isWS).reverse.dropWhile isWS).reverse)

/-- Split a char list on a separator character, as JS `s.split(sep)` with
a one-character separator. -/
def splitOnCharAux (c : Char) : List Char → List Char → List (List Char)
  | [], acc => [acc.reverse]
  | x :: xs, acc =>
    if x = c then acc.reverse :: splitOnCharAux c xs []
    else splitOnCharAux c xs (x :: acc)

def splitOnChar (c : Char) (l : List Char) : List (List Char) :=
  splitOnCharAux c l []

/-- `extractFilePath`: try each known path alias in priority order,
falling back to the empty string. -/
def extractFilePath (args : ToolArgs) : String :=
  jsS (jsOrO args.path (jsOrO args.AbsolutePath (jsOrO args.TargetFile
    (jsOrO args.file (jsOrO args.filePath (jsOrO args.File args.FilePath))))))

/-- `getFileName`: last `/`-separated component of a path (backslashes
normalized), the path itself if that component is empty, `"file"` for an
empty path. -/
def getFileName (path : String) : String :=
  if path = "" then "file"
  else
    let normalized := path.toList.map (fun ch => if ch = '\\' then '/' else ch)
    let parts := (splitOnChar '/' normalized).map String.mk
    let last := (parts.getLast?).getD ""
    if last = "" then path else last

/-- Number of lines of a string as computed by the source:
`(s.match(/\n/g) || []).length + 1`. -/
def lineCount (s : String) : Nat :=
  (s.toList.filter (fun c => c = Char.ofNat 10)).length + 1

/-- Default humanization of a tool name: underscores to spaces, first
word character capitalized. -/
def humanize (toolName : String) : String :=
  let replaced := String.mk (toolName.toList.map (fun ch => if ch = '_' then ' ' else ch))
  match replaced.toList with
  | [] => ""
  | c :: rest => if c.isAlphanum then String.mk (c.toUpper :: rest) else String.mk (c :: rest)

/-- The tool name displayed by `createToolEvent`: `data.toolName || 'unknown'`. -/
def toolNameStr (t : Option String) : String :=
  if truthy t then jsS t else "unknown"

/-- The label/details switch of `createToolEvent` (everything except the
clock-derived `id`, `toolCallId` fallback and `timestamp`), including the
final error-details override. -/
def toolLabelDetails (data : EventData) (status : String) : String × Option String :=
  let toolName := toolNameStr data.toolName
  let args := data.arguments.getD {}
  let result := data.result.getD {}
  let base : String × Option String :=
    if toolName = "view" ∨ toolName = "read_file" ∨ toolName = "view_file" then
      let viewPath := extractFilePath args
      let label := (if status = "loading" then "Reading " else "Read ") ++ getFileName viewPath
      let details := if truthy result.content then
          some (toString (lineCount (jsS result.content)) ++ " lines")
        else none
      (label, details)
    else if toolName = "write_file" ∨ toolName = "write_to_file" ∨ toolName = "create_file" then
      let isCreate := toolName = "create_file" ∨ toolName = "write_to_file"
      let writePath := extractFilePath args
      let label := (if status = "loading" then (if isCreate then "Creating " else "Writing ")
          else (if isCreate then "Create " else "Write ")) ++ getFileName writePath
      let details := if truthy args.content then
          some ("(+" ++ toString (lineCount (jsS args.content)) ++ ")")
        else none
      (label, details)
    else if toolName = "edit" ∨ toolName = "edit_file" ∨ toolName = "replace_file_content"
        ∨ toolName = "multi_replace_file_content" then
      let editPath := extractFilePath args
      let label := (if status = "loading" then "Editing " else "Edit ") ++ getFileName editPath
      let details := if result.linesAdded.isSome ∨ result.linesRemoved.isSome then
          let added := result.linesAdded.getD 0
          let removed := result.linesRemoved.getD 0
          if removed > 0 then some ("(+" ++ toString added ++ " -" ++ toString removed ++ ")")
          else if added > 0 then some ("(+" ++ toString added ++ ")")
          else none
        else none
      (label, details)
    else if toolName = "run_command" ∨ toolName = "execute_command" then
      let cmd := jsS (jsOrO args.command args.CommandLine)
      let truncatedCmd := if cmd.length > 40 then cmd.take 40 ++ "..." else cmd
      ((if status = "loading" then "Running command" else "Ran command"), some truncatedCmd)
    else if toolName = "grep_search" ∨ toolName = "search" ∨ toolName = "find_by_name" then
      let query := jsS (jsOrO args.query (jsOrO args.pattern (jsOrO args.Query args.Pattern)))
      let details := if query.length > 30 then query.take 30 ++ "..." else query
      ((if status = "loading" then "Searching" else "Searched"), some details)
    else if toolName = "list_directory" ∨ toolName = "list_dir" then
      let dirPath := jsOrStr (jsOrO (if extractFilePath args = "" then none else some (extractFilePath args))
        (jsOrO args.DirectoryPath (jsOrO args.directory args.dir))) ""
      ((if status = "loading" then "Listing " else "Listed ") ++ getFileName dirPath, none)
    else if toolName = "web_search" ∨ toolName = "search_web" then
      ((if status = "loading" then "Searching web" else "Searched web"), args.query)
    else
      (humanize toolName ++ (if status = "loading" then "..." else ""), none)
  -- `if (status === 'error' && data.error) details = data.error.message || 'Error occurred'`
  let details := if status = "error" ∧ data.error.isSome then
      some (jsOrStr ((data.error.getD {}).message) "Error occurred")
    else base.2
  (base.1, details)

/-- `createToolEvent` of the source. `now` is the tick supplying every
`Date.now()` call of one invocation. -/
def createToolEvent (now : Nat) (data : EventData) (status : String) : ToolEventOut :=
  let toolCallId := jsOrStr data.toolCallId ("tool_" ++ toString now)
  let ld := toolLabelDetails data status
  { id := "event_" ++ toolCallId ++ "_" ++ toString now
    toolCallId := toolCallId
    toolName := toolNameStr data.toolName
    status := status
    label := ld.1
    details := ld.2
    timestamp := now }

/-! ### Live mode: `CopilotService.handleEvent` and the webview `handleMessage` -/

/-- Pending tool-call cache entry (`pendingToolCalls` values). -/
structure PendingTool where
  toolName : Option String
  arguments : ToolArgs
deriving DecidableEq

/-- Mutable fields of `CopilotService` relevant to live event handling.
`pendingToolCalls` is a JS `Map` keyed by `event.data.toolCallId`
(possibly `undefined`), modelled as an insertion-ordered association
list with unique keys. -/
structure ServiceState where
  currentMessageId : Option String := none
  pendingToolCalls : List (Option String × PendingTool) := []
deriving DecidableEq

/-- JS `Map.set`: overwrite in place if the key exists, else append. -/
def mapSet (m : List (Option String × PendingTool)) (k : Option String) (v : PendingTool) :
    List (Option String × PendingTool) :=
  if m.any (fun p => p.1 == k) then
    m.map (fun p => if p.1 = k then (k, v) else p)
  else m ++ [(k, v)]

/-- JS `Map.get`. -/
def mapGet (m : List (Option String × PendingTool)) (k : Option String) : Option PendingTool :=
  (m.find? (fun p => p.1 == k)).map (fun p => p.2)

/-- JS `Map.delete`. -/
def mapDel (m : List (Option String × PendingTool)) (k : Option String) :
    List (Option String × PendingTool) :=
  m.filter (fun p => p.1 != k)

/-- A `webview.postMessage` payload sent by the extension host
(the subset of `ServerMessage` shapes the service actually posts). -/
inductive ServerMsg where
  | streamChunk (messageId : Option String) (content : Option String)
  | streamEnd (messageId : Option String) (content : Option String)
  | generationComplete
  | contextUsageUpdate (tokenLimit currentTokens messagesLength percentage : Nat)
  | toolEvent (messageId : Option String) (event : ToolEventOut)
  | error (message : String)
  | modelChanged (modelId : String)
  | addMessage (id : String) (role : Role) (content : String) (model : Option String)
deriving DecidableEq

/-- `CopilotService.handleEvent`: one live session event in, the new
service state and the ordered list of posted webview messages out.
`now` is the `Date.now()` tick for this invocation. The fallback text of
`session.error` and the `Math.round` of `session.usage_info` (here as
round-half-up rational arithmetic) are from the source. -/
def handleEvent (now : Nat) (s : ServiceState) (event : SEvent) :
    ServiceState × List ServerMsg :=
  if event.type = "assistant.message_delta" then
    (s, [.streamChunk s.currentMessageId event.data.deltaContent])
  else if event.type = "assistant.message" then
    (s, [.streamEnd s.currentMessageId event.data.content])
  else if event.type = "session.idle" then
    ({ s with currentMessageId := none }, [.generationComplete])
  else if event.type = "session.usage_info" then
    let tokenLimit := event.data.tokenLimit
    let currentTokens := event.data.currentTokens
    let percentage := if tokenLimit > 0 then (200 * currentTokens + tokenLimit) / (2 * tokenLimit) else 0
    (s, [.contextUsageUpdate tokenLimit currentTokens event.data.messagesLength percentage])
  else if event.type = "tool.execution_start" then
    if isInternalTool event.data.toolName then (s, [])
    else
      let pending := mapSet s.pendingToolCalls event.data.toolCallId
        { toolName := event.data.toolName, arguments := event.data.arguments.getD {} }
      ({ s with pendingToolCalls := pending },
       [.toolEvent s.currentMessageId (createToolEvent now event.data "loading")])
  else if event.type = "tool.execution_complete" then
    match mapGet s.pendingToolCalls event.data.toolCallId with
    | none => (s, [])
    | some cachedInfo =>
      let completeData := { event.data with
        toolName := cachedInfo.toolName, arguments := some cachedInfo.arguments }
      let pending := mapDel s.pendingToolCalls event.data.toolCallId
      ({ s with pendingToolCalls := pending },
       [.toolEvent s.currentMessageId
         (createToolEvent now completeData
           (if event.data.success = some true then "success" else "error"))])
  else if event.type = "session.error" then
    ({ s with currentMessageId := none },
     [.error (jsOrStr event.data.message "An error occurred during AI processing"),
      .generationComplete])
  else (s, [])

/-- Webview state fields of `App.tsx` touched by the handled messages. -/
structure WebviewState where
  messages : List ChatMessage := []
  isGenerating : Bool := false
  streamingMessageId : Option String := none
  selectedModelId : String := "gpt-4.1"
deriving DecidableEq

/-- JS `msg.content + message.content` (string concatenation coerces an
`undefined` chunk to the string "undefined"). -/
def jsAppendChunk (content : String) (chunk : Option String) : String :=
  content ++ (match chunk with | some c => c | none => "undefined")

/-- `App.handleMessage` of the webview, restricted to the message shapes
the service posts. Note: `streamEnd` only clears `streamingMessageId`;
its `content` payload is not applied to any message. Messages with no
matching case (e.g. `contextUsageUpdate`) fall through unchanged. -/
def handleMessage (now : Nat) (w : WebviewState) (m : ServerMsg) : WebviewState :=
  match m with
  | .addMessage id role content model =>
    let w1 := { w with messages := w.messages ++
      [{ id := id, role := role, content := content, timestamp := now, model := model }] }
    if role = Role.assistant then
      { w1 with isGenerating := true, streamingMessageId := some id }
    else w1
  | .streamChunk messageId content =>
    { w with messages := w.messages.map (fun msg =>
        if some msg.id = messageId then { msg with content := jsAppendChunk msg.content content }
        else msg) }
  | .streamEnd _ _ => { w with streamingMessageId := none }
  | .generationComplete => { w with isGenerating := false, streamingMessageId := none }
  | .error _ => { w with isGenerating := false }
  | .modelChanged modelId => { w with selectedModelId := modelId }
  | .toolEvent messageId ev =>
    { w with messages := w.messages.map (fun msg =>
        if some msg.id = messageId then
          let existingEvents := msg.toolEvents.getD []
          match existingEvents.findIdx? (fun e => e.toolCallId == ev.toolCallId) with
          | some i => { msg with toolEvents := some (existingEvents.set i ev) }
          | none => { msg with toolEvents := some (existingEvents ++ [ev]) }
        else msg) }
  | .contextUsageUpdate _ _ _ _ => w

/-- One live event: service handling followed by the webview processing
each posted message in order. -/
def liveStep (now : Nat) (st : ServiceState × WebviewState) (e : SEvent) :
    (ServiceState × WebviewState) × List ServerMsg :=
  let r := handleEvent now st.1 e
  ((r.1, r.2.foldl (handleMessage now) st.2), r.2)

/-- Run a list of live events, collecting every posted webview message. -/
def runLiveTrace (o : Oracle) : Nat → ServiceState × WebviewState → List SEvent →
    (ServiceState × WebviewState) × List ServerMsg
  | _, st, [] => (st, [])
  | k, st, e :: es =>
    let r := liveStep (o.now k) st e
    let rest := runLiveTrace o (k + 1) r.1 es
    (rest.1, r.2 ++ rest.2)

/-! ### Resume mode: the pure core of `CopilotService.resumeSession` -/

/-- One entry of a turn-scoped `toolExecutions` map. -/
structure ToolExecution where
  start : Option SEvent := none
  complete : Option SEvent := none
deriving DecidableEq

/-- `ConversationTurn` of the source. The `toolExecutions` JS `Map` is an
insertion-ordered association list keyed by `toolCallId`. -/
structure ConversationTurn where
  userMessage : Option SEvent
  assistantMessages : List SEvent
  toolExecutions : List (Option String × ToolExecution)
  activeModel : Option String
deriving DecidableEq

/-- Update-or-insert on a turn's `toolExecutions`
(`if (!map.has(id)) map.set(id, {}); f(map.get(id))`). -/
def toolUpd (m : List (Option String × ToolExecution)) (k : Option String)
    (f : ToolExecution → ToolExecution) : List (Option String × ToolExecution) :=
  if m.any (fun p => p.1 == k) then
    m.map (fun p => if p.1 = k then (k, f p.2) else p)
  else m ++ [(k, f {})]

/-- Accumulator of the event walk. In the source, finished turns sit in
the `turns` array and `currentTurn` aliases its last element; here the
array is `doneTurns ++ currentTurn.toList`. -/
structure WalkState where
  doneTurns : List ConversationTurn
  currentTurn : Option ConversationTurn
  currentSessionModel : Option String
deriving DecidableEq

/-- One step of the resume walk (the `switch` inside the
`for (const event of events)` loop of `resumeSession`). -/
def walkEvent (st : WalkState) (event : SEvent) : WalkState :=
  if event.type = "session.model_change" then
    { st with currentSessionModel := event.data.newModel }
  else if event.type = "user.message" then
    let newTurn : ConversationTurn :=
      { userMessage := some event, assistantMessages := [],
        toolExecutions := [], activeModel := st.currentSessionModel }
    { doneTurns := st.doneTurns ++ st.currentTurn.toList,
      currentTurn := some newTurn,
      currentSessionModel := st.currentSessionModel }
  else if event.type = "assistant.message" then
    let anonTurn : ConversationTurn :=
      { userMessage := none, assistantMessages := [],
        toolExecutions := [], activeModel := st.currentSessionModel }
    let cur := match st.currentTurn with
      | some t => t
      | none => anonTurn
    { st with currentTurn := some { cur with assistantMessages := cur.assistantMessages ++ [event] } }
  else if event.type = "assistant.usage" then
    match st.currentTurn with
    | some t =>
      if truthy event.data.model then
        { st with currentTurn := some { t with activeModel := event.data.model } }
      else st
    | none => st
  else if event.type = "tool.execution_start" then
    match st.currentTurn with
    | some t =>
      if isInternalTool event.data.toolName then st
      else
        let execs := toolUpd t.toolExecutions event.data.toolCallId
          (fun ex => { ex with start := some event })
        { st with currentTurn := some { t with toolExecutions := execs } }
    | none => st
  else if event.type = "tool.execution_complete" then
    match st.currentTurn with
    | some t =>
      let execs := toolUpd t.toolExecutions event.data.toolCallId
        (fun ex => { ex with complete := some event })
      { st with currentTurn := some { t with toolExecutions := execs } }
    | none => st
  else st

/-- The full walk: fold the event log into the ordered list of turns.
`seed` is `originalModel || null`. -/
def walkTurns (seed : Option String) (events : List SEvent) : List ConversationTurn :=
  let final := events.foldl walkEvent
    { doneTurns := [], currentTurn := none, currentSessionModel := seed }
  final.doneTurns ++ final.currentTurn.toList

/-- Seeding step of `resumeSession`:
`const originalModel = events[0].data.selectedModel` followed by
`originalModel || null`. On the empty log the member access throws. -/
def seedModel (events : List SEvent) : Except String (Option String) :=
  match events with
  | [] => .error "TypeError: cannot read properties of undefined (reading data)"
  | e :: _ => .ok (if truthy e.data.selectedModel then e.data.selectedModel else none)

/-- Fresh message id: `msg_` ++ `Date.now()` ++ `_` ++ random suffix. -/
def freshMsgId (o : Oracle) (k : Nat) : String :=
  "msg_" ++ toString (o.now k) ++ "_" ++ o.rand k

/-- One execution entry of a turn contributes a display tool event when
its start is recorded: name/arguments from the start, status/result from
the completion (`loading` when the completion never arrived). -/
def turnToolStep (o : Oracle) (acc : List ToolEventOut × Nat)
    (p : Option String × ToolExecution) : List ToolEventOut × Nat :=
  match p.2.start with
  | none => acc
  | some s =>
    let completeData := match p.2.complete with
      | some c => { c.data with toolName := s.data.toolName, arguments := s.data.arguments }
      | none => s.data
    let status := match p.2.complete with
      | some c => if c.data.success = some true then "success" else "error"
      | none => "loading"
    (acc.1 ++ [createToolEvent (o.now acc.2) completeData status], acc.2 + 1)

/-- Build the display tool events of one turn from its execution pairs,
threading the oracle tick (one tick per `createToolEvent` call). -/
def turnToolEvents (o : Oracle) (k : Nat) (t : ConversationTurn) : List ToolEventOut × Nat :=
  t.toolExecutions.foldl (turnToolStep o) ([], k)

/-- Accumulator of the message-building pass. -/
structure BuildState where
  messages : List ChatMessage
  lastUsedModel : Option String
  k : Nat

/-- One assistant event of a turn becomes one assistant message carrying
the turn's tool events and
`turn.activeModel || this.currentModel || undefined`. -/
def buildAssistant (o : Oracle) (svcModel : Option String) (turn : ConversationTurn)
    (st2 : BuildState) (assistantEvent : SEvent) : BuildState :=
  let te := turnToolEvents o st2.k turn
  let messageModel := jsOrO (jsOrO turn.activeModel svcModel) none
  { messages := st2.messages ++ [{
      id := freshMsgId o te.2, role := Role.assistant,
      content := jsOrStr assistantEvent.data.content "",
      timestamp := o.now te.2,
      model := messageModel,
      toolEvents := if te.1.length > 0 then some te.1 else none }]
    lastUsedModel := if messageModel.isSome then messageModel else st2.lastUsedModel
    k := te.2 + 1 }

/-- Flatten one turn into messages: the user message (if present), then
one assistant message per assistant event. -/
def buildTurn (o : Oracle) (svcModel : Option String) (st : BuildState)
    (turn : ConversationTurn) : BuildState :=
  let st1 := match turn.userMessage with
    | some um =>
      { st with
        messages := st.messages ++ [{
          id := freshMsgId o st.k, role := Role.user,
          content := jsOrStr um.data.content "", timestamp := o.now st.k }]
        k := st.k + 1 }
    | none => st
  turn.assistantMessages.foldl (buildAssistant o svcModel turn) st1

/-- The message-building pass plus the final empty-content filter;
also yields `lastUsedModel`. -/
def resumeBuild (o : Oracle) (svcModel : Option String) (turns : List ConversationTurn) :
    List ChatMessage × Option String :=
  let final := turns.foldl (buildTurn o svcModel) { messages := [], lastUsedModel := none, k := 0 }
  (final.messages.filter (fun msg => jsTrim msg.content != ""), final.lastUsedModel)

/-- The pure core of `resumeSession`: seed the active model from the
first event, walk the log into turns, flatten into messages, filter
blanks. `svcModel` is `this.currentModel` on entry. -/
def resumeMessages (o : Oracle) (svcModel : Option String) (events : List SEvent) :
    Except String (List ChatMessage) :=
  match seedModel events with
  | .error e => .error e
  | .ok seed => .ok (resumeBuild o svcModel (walkTurns seed events)).1

/-- The reconstructed message list, empty when reconstruction fails. -/
def resumeOr (o : Oracle) (svcModel : Option String) (events : List SEvent) :
    List ChatMessage :=
  match resumeMessages o svcModel events with
  | .ok ms => ms
  | .error _ => []

deriving instance DecidableEq for Except

/-! ### Auxiliary definitions used by the theorems -/

/-- Erase the clock/randomness-derived fields of a display tool event
(`id` and `timestamp` embed `Date.now()`; the `toolCallId` fallback for
an absent id embeds `Date.now()` as well). -/
def stripToolEvent (te : ToolEventOut) : ToolEventOut :=
  { te with id := "", toolCallId := "", timestamp := 0 }

/-- Erase the clock/randomness-derived fields of a reconstructed message. -/
def stripMsg (m : ChatMessage) : ChatMessage :=
  { m with
    id := "",
    timestamp := 0,
    toolEvents := m.toolEvents.map (fun l => l.map stripToolEvent) }

/-- Erasure lifted to a reconstruction result. -/
def stripRun : Except String (List ChatMessage) → Except String (List ChatMessage)
  | .ok ms => .ok (ms.map stripMsg)
  | .error e => .error e

/-- A posted webview message carries no internal tool name. -/
def serverMsgToolOk (m : ServerMsg) : Bool :=
  match m with
  | .toolEvent _ ev => ! internalTools.contains ev.toolName
  | _ => true

/-- No reconstructed message carries an internal tool name. -/
def chatToolOk (msgs : List ChatMessage) : Bool :=
  msgs.all (fun m => (m.toolEvents.getD []).all (fun te => ! internalTools.contains te.toolName))

/-- Invariant: every cached pending tool call has a non-internal name. -/
def pendingOk (s : ServiceState) : Bool :=
  s.pendingToolCalls.all (fun p => ! isInternalTool p.2.toolName)

/-- Invariant: every recorded tool start in a turn has a non-internal name. -/
def turnStartsOk (t : ConversationTurn) : Bool :=
  t.toolExecutions.all (fun p =>
    match p.2.start with
    | some s => ! isInternalTool s.data.toolName
    | none => true)

/-- The log contains no `tool.execution_start` event. -/
def noToolStarts (events : List SEvent) : Bool :=
  events.all (fun e => e.type != "tool.execution_start")

/-- No reconstructed message carries any tool events. -/
def noToolEvents (msgs : List ChatMessage) : Bool :=
  msgs.all (fun m => m.toolEvents == none)

/-- Invariant: no execution entry of a turn has a recorded start. -/
def turnNoStarts (t : ConversationTurn) : Bool :=
  t.toolExecutions.all (fun p => p.2.start == none)

/-- The non-blank user-message contents of a log, in order (blank
contents are the ones the final filter of `resumeSession` removes). -/
def userContentsOfLog (events : List SEvent) : List String :=
  events.filterMap (fun e =>
    if e.type = "user.message" then
      let c := jsOrStr e.data.content ""
      if jsTrim c = "" then none else some c
    else none)

/-- The contents of the user-role messages of a transcript, in order. -/
def userContentsOfMessages (msgs : List ChatMessage) : List String :=
  msgs.filterMap (fun m => if m.role = Role.user then some m.content else none)

/-- The non-blank user content contributed by one turn, if any. -/
def turnUser (t : ConversationTurn) : Option String :=
  t.userMessage.bind (fun um =>
    let c := jsOrStr um.data.content ""
    if jsTrim c = "" then none else some c)

/-- The non-blank user contents contributed by a turn list. -/
def turnsUsers (ts : List ConversationTurn) : List String :=
  ts.filterMap turnUser

/-- Drop every execution entry recorded under the given call id. -/
def eraseKey (k : Option String) (m : List (Option String × ToolExecution)) :
    List (Option String × ToolExecution) :=
  m.filter (fun p => p.1 != k)

/-- Drop the execution entries of a turn that never received a start
(the entries the message builder skips). -/
def pruneTurn (t : ConversationTurn) : ConversationTurn :=
  { t with toolExecutions := t.toolExecutions.filter (fun p => p.2.start.isSome) }

/-- The turns array represented by a walk state (finished turns plus the
open one). -/
def turnsArray (st : WalkState) : List ConversationTurn :=
  st.doneTurns ++ st.currentTurn.toList

/-- The open turn (if any) has no recorded start under the given call id:
the turn-scoped table holds no matching `tool_start` for it. -/
def noStartAtKey (k : Option String) (cu : Option ConversationTurn) : Bool :=
  match cu with
  | none => true
  | some cur => cur.toolExecutions.all (fun p => p.1 != k || p.2.start == none)

/-- No non-internal `tool.execution_start` with the given call id occurs
in the remainder of the currently open turn (up to the next
`user_message`). -/
def noLaterStart (k : Option String) (post : List SEvent) : Bool :=
  (post.takeWhile (fun x => x.type != "user.message")).all
    (fun e => !(e.type == "tool.execution_start" && e.data.toolCallId == k &&
      !(isInternalTool e.data.toolName)))

/-- The contents of the non-blank user-role messages of a list (the
user-role messages that survive the final blank filter). -/
def userNB (msgs : List ChatMessage) : List String :=
  msgs.filterMap (fun m =>
    if m.role = Role.user ∧ jsTrim m.content ≠ "" then some m.content else none)

/-- Concatenation of a list of delta chunks, `d1 ++ ... ++ dn`. -/
def strConcat : List String → String
  | [] => ""
  | d :: ds => d ++ strConcat ds

/-- First-found content of the message with the given id. -/
def contentOf (w : WebviewState) (i : String) : Option String :=
  (w.messages.find? (fun m => m.id == i)).map (fun m => m.content)

/-! ### Concrete fixtures for counterexamples and witnesses -/

/-- A fixed clock/randomness supply (models one `resumeSession` run). -/
def oracle0 : Oracle := { now := fun _ => 0, rand := fun _ => "r" }

/-- A different supply (models a second run at a later wall-clock time). -/
def oracle1 : Oracle := { now := fun k => k + 100, rand := fun k => "r" ++ toString k }

/-- A historical `user.message` event (optionally carrying the session's
`selectedModel`, as the first event of a log does). -/
def um (c : String) (sel : Option String := none) : SEvent :=
  { type := "user.message", data := { content := some c, selectedModel := sel } }

/-- A historical `assistant.message` event. -/
def am (c : String) : SEvent :=
  { type := "assistant.message", data := { content := some c } }

/-- A historical `session.model_change` event. -/
def mcEv (m : String) : SEvent :=
  { type := "session.model_change", data := { newModel := some m } }

/-- A historical `assistant.usage` event carrying a model. -/
def usageEv (m : String) : SEvent :=
  { type := "assistant.usage", data := { model := some m } }

/-- A live `assistant.message_delta` event. -/
def deltaEv (d : String) : SEvent :=
  { type := "assistant.message_delta", data := { deltaContent := some d } }

/-- A live `assistant.message` (stream-complete) event. -/
def completeEv (t : String) : SEvent :=
  { type := "assistant.message", data := { content := some t } }

/-- A live `tool.execution_start` event. -/
def toolStartEv (callId toolName : String) : SEvent :=
  { type := "tool.execution_start",
    data := { toolCallId := some callId, toolName := some toolName } }

/-- A live `tool.execution_complete` event. -/
def toolCompleteEv (callId : String) (success : Bool) : SEvent :=
  { type := "tool.execution_complete",
    data := { toolCallId := some callId, success := some success } }

/-- A live `session.error` event. -/
def errorEv (msg : Option String) : SEvent :=
  { type := "session.error", data := { message := msg } }

/-- A live `session.idle` event. -/
def idleEv : SEvent := { type := "session.idle" }

/-- A webview holding one open assistant message with id `m1`. -/
def w0 : WebviewState :=
  { messages := [{ id := "m1", role := Role.assistant, content := "", timestamp := 0 }],
    isGenerating := true, streamingMessageId := some "m1" }

/-- A service state whose current message id is `m1`. -/
def s0 : ServiceState := { currentMessageId := some "m1" }

/-! ### Helper lemmas -/

theorem ne_empty_of_trim {s : String} (h : jsTrim s ≠ "") : s ≠ "" := by
  intro hs
  subst hs
  exact h rfl

theorem foldl_preserve {α β : Type} {P : β → Prop} {f : β → α → β} :
    ∀ (l : List α) (b : β), P b → (∀ b a, a ∈ l → P b → P (f b a)) → P (l.foldl f b)
  | [], _, hb, _ => hb
  | a :: l, b, hb, hf =>
    foldl_preserve l (f b a) (hf b a (by simp) hb)
      (fun b2 a2 ha2 => hf b2 a2 (by simp [ha2]))

theorem find_chunk (i d : String) :
    ∀ (ms : List ChatMessage),
      (((ms.map (fun msg => if some msg.id = some i then
          { msg with content := jsAppendChunk msg.content (some d) } else msg)).find?
        (fun m => m.id == i)).map (fun m => m.content)) =
      ((ms.find? (fun m => m.id == i)).map (fun m => m.content)).map (fun c => c ++ d)
  | [] => by simp
  | m :: ms => by
    by_cases h : m.id = i
    · simp [List.find?, h, jsAppendChunk]
    · simp only [List.map_cons]
      rw [if_neg (by simp [h])]
      rw [List.find?_cons_of_neg _ (by simp [h]), List.find?_cons_of_neg _ (by simp [h])]
      exact find_chunk i d ms

/-- Appending a streamed chunk updates exactly the open message's
content by string concatenation. -/
theorem contentOf_chunk (now : Nat) (w : WebviewState) (i d : String) :
    contentOf (handleMessage now w (.streamChunk (some i) (some d))) i =
      (contentOf w i).map (fun c => c ++ d) := by
  simp only [contentOf, handleMessage]
  exact find_chunk i d w.messages

/-- `toolUpd` preserves a property of execution entries, provided the
update function does and the fresh entry satisfies it. -/
theorem toolUpd_preserve {Q : Option String × ToolExecution → Prop}
    (m : List (Option String × ToolExecution)) (k : Option String)
    (f : ToolExecution → ToolExecution)
    (h : ∀ p ∈ m, Q p)
    (hf : ∀ p ∈ m, Q p → Q (k, f p.2))
    (h0 : Q (k, f {})) :
    ∀ p ∈ toolUpd m k f, Q p := by
  intro p hp
  unfold toolUpd at hp
  by_cases hmem : m.any (fun q => q.1 == k) = true
  · rw [if_pos hmem] at hp
    rcases List.mem_map.mp hp with ⟨q, hq, hqe⟩
    by_cases hqk : q.1 = k
    · rw [if_pos hqk] at hqe
      exact hqe ▸ hf q hq (h q hq)
    · rw [if_neg hqk] at hqe
      exact hqe ▸ h q hq
  · rw [if_neg hmem] at hp
    rcases List.mem_append.mp hp with hp1 | hp2
    · exact h p hp1
    · rw [List.mem_singleton] at hp2
      exact hp2 ▸ h0

/-- One walk step preserves a property of all execution entries of all
turns, provided recording a start (only reachable for non-internal
`tool.execution_start` events) and recording a completion preserve it. -/
theorem walkEvent_execs {Q : Option String × ToolExecution → Prop}
    (st : WalkState) (e : SEvent)
    (hstartQ : e.type = "tool.execution_start" → isInternalTool e.data.toolName = false →
      ∀ (k : Option String) (ex : ToolExecution), Q (k, { ex with start := some e }))
    (hcompleteQ : ∀ (k : Option String) (p : Option String × ToolExecution),
      Q p → Q (k, { p.2 with complete := some e }))
    (hcomplete0 : ∀ k : Option String,
      Q (k, { start := none, complete := some e }))
    (h : ∀ t ∈ st.doneTurns ++ st.currentTurn.toList, ∀ p ∈ t.toolExecutions, Q p) :
    ∀ t ∈ (walkEvent st e).doneTurns ++ (walkEvent st e).currentTurn.toList,
      ∀ p ∈ t.toolExecutions, Q p := by
  intro t ht
  by_cases h1 : e.type = "session.model_change"
  · have he : walkEvent st e = { st with currentSessionModel := e.data.newModel } := by
      simp [walkEvent, h1]
    rw [he] at ht
    exact h t ht
  by_cases h2 : e.type = "user.message"
  · have he : (walkEvent st e).doneTurns ++ (walkEvent st e).currentTurn.toList =
        (st.doneTurns ++ st.currentTurn.toList) ++
        [{ userMessage := some e, assistantMessages := [], toolExecutions := [],
           activeModel := st.currentSessionModel }] := by
      simp [walkEvent, h1, h2]
    rw [he] at ht
    rcases List.mem_append.mp ht with hl | hr
    · exact h t hl
    · rw [List.mem_singleton] at hr
      subst hr
      intro p hp
      simp at hp
  by_cases h3 : e.type = "assistant.message"
  · cases hc : st.currentTurn with
    | some c =>
      have he : (walkEvent st e).doneTurns ++ (walkEvent st e).currentTurn.toList =
          st.doneTurns ++ [{ c with assistantMessages := c.assistantMessages ++ [e] }] := by
        simp [walkEvent, h1, h2, h3, hc]
      rw [he] at ht
      rcases List.mem_append.mp ht with hl | hr
      · exact h t (List.mem_append.mpr (Or.inl hl))
      · rw [List.mem_singleton] at hr
        subst hr
        intro p hp
        exact h c (List.mem_append.mpr (Or.inr (by simp [hc]))) p hp
    | none =>
      have he : (walkEvent st e).doneTurns ++ (walkEvent st e).currentTurn.toList =
          st.doneTurns ++
          [{ userMessage := none, assistantMessages := [e], toolExecutions := [],
             activeModel := st.currentSessionModel }] := by
        simp [walkEvent, h1, h2, h3, hc]
      rw [he] at ht
      rcases List.mem_append.mp ht with hl | hr
      · exact h t (by simp [hc, hl])
      · rw [List.mem_singleton] at hr
        subst hr
        intro p hp
        simp at hp
  by_cases h4 : e.type = "assistant.usage"
  · cases hc : st.currentTurn with
    | some c =>
      by_cases htr : truthy e.data.model = true
      · have he : (walkEvent st e).doneTurns ++ (walkEvent st e).currentTurn.toList =
            st.doneTurns ++ [{ c with activeModel := e.data.model }] := by
          simp [walkEvent, h1, h2, h3, h4, hc, htr]
        rw [he] at ht
        rcases List.mem_append.mp ht with hl | hr
        · exact h t (List.mem_append.mpr (Or.inl hl))
        · rw [List.mem_singleton] at hr
          subst hr
          intro p hp
          exact h c (List.mem_append.mpr (Or.inr (by simp [hc]))) p hp
      · have he : walkEvent st e = st := by
          simp [walkEvent, h1, h2, h3, h4, hc, htr]
        rw [he] at ht
        exact h t ht
    | none =>
      have he : walkEvent st e = st := by
        simp [walkEvent, h1, h2, h3, h4, hc]
      rw [he] at ht
      exact h t ht
  by_cases h5 : e.type = "tool.execution_start"
  · cases hc : st.currentTurn with
    | some c =>
      by_cases hint : isInternalTool e.data.toolName = true
      · have he : walkEvent st e = st := by
          simp [walkEvent, h1, h2, h3, h4, h5, hc, hint]
        rw [he] at ht
        exact h t ht
      · rw [Bool.not_eq_true] at hint
        have he : (walkEvent st e).doneTurns ++ (walkEvent st e).currentTurn.toList =
            st.doneTurns ++
            [{ c with toolExecutions := toolUpd c.toolExecutions e.data.toolCallId (fun ex => { ex with start := some e }) }] := by
          simp [walkEvent, h1, h2, h3, h4, h5, hc, hint]
        rw [he] at ht
        rcases List.mem_append.mp ht with hl | hr
        · exact h t (List.mem_append.mpr (Or.inl hl))
        · rw [List.mem_singleton] at hr
          subst hr
          intro p hp
          have hp2 : p ∈ toolUpd c.toolExecutions e.data.toolCallId (fun ex => { ex with start := some e }) := hp
          refine toolUpd_preserve c.toolExecutions e.data.toolCallId _
            (h c (List.mem_append.mpr (Or.inr (by simp [hc])))) ?_ ?_ p hp2
          · intro q _ _
            exact hstartQ h5 hint e.data.toolCallId q.2
          · exact hstartQ h5 hint e.data.toolCallId {}
    | none =>
      have he : walkEvent st e = st := by
        simp [walkEvent, h1, h2, h3, h4, h5, hc]
      rw [he] at ht
      exact h t ht
  by_cases h6 : e.type = "tool.execution_complete"
  · cases hc : st.currentTurn with
    | some c =>
      have he : (walkEvent st e).doneTurns ++ (walkEvent st e).currentTurn.toList =
          st.doneTurns ++
          [{ c with toolExecutions := toolUpd c.toolExecutions e.data.toolCallId (fun ex => { ex with complete := some e }) }] := by
        simp [walkEvent, h1, h2, h3, h4, h5, h6, hc]
      rw [he] at ht
      rcases List.mem_append.mp ht with hl | hr
      · exact h t (List.mem_append.mpr (Or.inl hl))
      · rw [List.mem_singleton] at hr
        subst hr
        intro p hp
        have hp2 : p ∈ toolUpd c.toolExecutions e.data.toolCallId (fun ex => { ex with complete := some e }) := hp
        refine toolUpd_preserve c.toolExecutions e.data.toolCallId _
          (h c (List.mem_append.mpr (Or.inr (by simp [hc])))) ?_ ?_ p hp2
        · intro q _ hq
          exact hcompleteQ e.data.toolCallId q hq
        · exact hcomplete0 e.data.toolCallId
    | none =>
      have he : walkEvent st e = st := by
        simp [walkEvent, h1, h2, h3, h4, h5, h6, hc]
      rw [he] at ht
      exact h t ht
  · have he : walkEvent st e = st := by
      simp [walkEvent, h1, h2, h3, h4, h5, h6]
    rw [he] at ht
    exact h t ht

/-- Walking a full log preserves an execution-entry property over all
produced turns. -/
theorem walkTurns_execs {Q : Option String × ToolExecution → Prop}
    (seed : Option String) (events : List SEvent)
    (hstartQ : ∀ e ∈ events, e.type = "tool.execution_start" →
      isInternalTool e.data.toolName = false →
      ∀ (k : Option String) (ex : ToolExecution), Q (k, { ex with start := some e }))
    (hcompleteQ : ∀ e ∈ events, ∀ (k : Option String) (p : Option String × ToolExecution),
      Q p → Q (k, { p.2 with complete := some e }))
    (hcomplete0 : ∀ e ∈ events, ∀ k : Option String,
      Q (k, { start := none, complete := some e })) :
    ∀ t ∈ walkTurns seed events, ∀ p ∈ t.toolExecutions, Q p := by
  unfold walkTurns
  exact foldl_preserve
    (P := fun st => ∀ t ∈ st.doneTurns ++ st.currentTurn.toList, ∀ p ∈ t.toolExecutions, Q p)
    events { doneTurns := [], currentTurn := none, currentSessionModel := seed }
    (by intro t ht; simp at ht)
    (fun st e he hst =>
      walkEvent_execs st e (hstartQ e he) (hcompleteQ e he) (hcomplete0 e he) hst)

/-- A turn with no recorded starts contributes no display tool events. -/
theorem turnToolEvents_no_starts (o : Oracle) (t : ConversationTurn)
    (h : ∀ p ∈ t.toolExecutions, p.2.start = none) (k : Nat) :
    turnToolEvents o k t = ([], k) := by
  unfold turnToolEvents
  suffices haux : ∀ (l : List (Option String × ToolExecution)) (acc : List ToolEventOut × Nat),
      (∀ p ∈ l, p.2.start = none) → l.foldl (turnToolStep o) acc = acc by
    exact haux t.toolExecutions ([], k) h
  intro l
  induction l with
  | nil => intro acc _; rfl
  | cons p rest ih =>
    intro acc hall
    have hp : p.2.start = none := hall p (by simp)
    have hstep : turnToolStep o acc p = acc := by
      simp [turnToolStep, hp]
    rw [List.foldl_cons, hstep]
    exact ih acc (fun q hq => hall q (by simp [hq]))

/-- Building from turns with no recorded starts yields messages carrying
no tool events. -/
theorem build_no_toolEvents (o : Oracle) (svc : Option String)
    (turns : List ConversationTurn)
    (hturns : ∀ t ∈ turns, ∀ p ∈ t.toolExecutions, p.2.start = none)
    (b : BuildState) (hb : ∀ m ∈ b.messages, m.toolEvents = none) :
    ∀ m ∈ (turns.foldl (buildTurn o svc) b).messages, m.toolEvents = none := by
  refine foldl_preserve (P := fun b2 => ∀ m ∈ b2.messages, m.toolEvents = none) turns b hb ?_
  intro b2 t ht hbm
  have hassist : ∀ (b3 : BuildState), (∀ m ∈ b3.messages, m.toolEvents = none) →
      ∀ m ∈ (t.assistantMessages.foldl (buildAssistant o svc t) b3).messages,
        m.toolEvents = none := by
    intro b3 hb3
    refine foldl_preserve (P := fun b4 => ∀ m ∈ b4.messages, m.toolEvents = none)
      t.assistantMessages b3 hb3 ?_
    intro b4 ae _ hb4 m hm
    have hte : turnToolEvents o b4.k t = ([], b4.k) :=
      turnToolEvents_no_starts o t (hturns t ht) b4.k
    simp only [buildAssistant, hte] at hm
    simp only [List.mem_append] at hm
    rcases hm with hm1 | hm2
    · exact hb4 m hm1
    · rw [List.mem_singleton] at hm2
      subst hm2
      rfl
  cases hu : t.userMessage with
  | some umsg =>
    simp only [buildTurn, hu]
    refine hassist _ ?_
    intro m hm
    simp only [List.mem_append] at hm
    rcases hm with hm1 | hm2
    · exact hbm m hm1
    · rw [List.mem_singleton] at hm2
      subst hm2
      rfl
  | none =>
    simp only [buildTurn, hu]
    exact hassist b2 hbm

/-- Folding skips elements the step function ignores. -/
theorem foldl_skip_filter {α β : Type} (f : β → α → β) (p : α → Bool) :
    ∀ (l : List α) (b : β), (∀ x ∈ l, p x = false → ∀ a, f a x = a) →
      l.foldl f b = (l.filter p).foldl f b
  | [], _, _ => rfl
  | x :: l, b, h => by
    rw [List.foldl_cons, List.filter_cons]
    by_cases hp : p x = true
    · rw [if_pos hp, List.foldl_cons]
      exact foldl_skip_filter f p l (f b x) (fun y hy => h y (by simp [hy]))
    · rw [if_neg hp]
      rw [h x (by simp) (by simpa using hp) b]
      exact foldl_skip_filter f p l b (fun y hy => h y (by simp [hy]))

/-- Start-less execution entries contribute no display tool events. -/
theorem turnToolEvents_prune (o : Oracle) (k : Nat) (t : ConversationTurn) :
    turnToolEvents o k (pruneTurn t) = turnToolEvents o k t := by
  show (t.toolExecutions.filter (fun p => p.2.start.isSome)).foldl (turnToolStep o) ([], k) =
    t.toolExecutions.foldl (turnToolStep o) ([], k)
  refine (foldl_skip_filter (turnToolStep o) (fun p => p.2.start.isSome)
    t.toolExecutions ([], k) ?_).symm
  intro x _ hpx a
  have hx : x.2.start = none := Option.not_isSome_iff_eq_none.mp (by simp [hpx])
  simp [turnToolStep, hx]

/-- Building an assistant message ignores start-less execution entries. -/
theorem buildAssistant_prune (o : Oracle) (svc : Option String) (t : ConversationTurn)
    (st2 : BuildState) (ae : SEvent) :
    buildAssistant o svc (pruneTurn t) st2 ae = buildAssistant o svc t st2 ae := by
  simp only [buildAssistant, turnToolEvents_prune]
  rfl

/-- Building a turn ignores start-less execution entries. -/
theorem buildTurn_prune (o : Oracle) (svc : Option String) (b : BuildState)
    (t : ConversationTurn) :
    buildTurn o svc b (pruneTurn t) = buildTurn o svc b t := by
  have hfun : buildAssistant o svc (pruneTurn t) = buildAssistant o svc t := by
    funext st2 ae
    exact buildAssistant_prune o svc t st2 ae
  simp only [buildTurn, hfun]
  rfl

/-- The message build only sees the pruned turns. -/
theorem build_prune (o : Oracle) (svc : Option String) :
    ∀ (turns : List ConversationTurn) (b : BuildState),
      (turns.map pruneTurn).foldl (buildTurn o svc) b = turns.foldl (buildTurn o svc) b
  | [], _ => rfl
  | t :: rest, b => by
    rw [List.map_cons, List.foldl_cons, List.foldl_cons, buildTurn_prune]
    exact build_prune o svc rest _

/-- Variant of `toolUpd_preserve` exposing that updated entries carry
the updated key. -/
theorem toolUpd_preserve2 {Q : Option String × ToolExecution → Prop}
    (m : List (Option String × ToolExecution)) (k : Option String)
    (f : ToolExecution → ToolExecution)
    (h : ∀ p ∈ m, Q p)
    (hf : ∀ p ∈ m, p.1 = k → Q p → Q (k, f p.2))
    (h0 : Q (k, f {})) :
    ∀ p ∈ toolUpd m k f, Q p := by
  intro p hp
  unfold toolUpd at hp
  by_cases hmem : m.any (fun q => q.1 == k) = true
  · rw [if_pos hmem] at hp
    rcases List.mem_map.mp hp with ⟨q, hq, hqe⟩
    by_cases hqk : q.1 = k
    · rw [if_pos hqk] at hqe
      exact hqe ▸ hf q hq hqk (h q hq)
    · rw [if_neg hqk] at hqe
      exact hqe ▸ h q hq
  · rw [if_neg hmem] at hp
    rcases List.mem_append.mp hp with hp1 | hp2
    · exact h p hp1
    · rw [List.mem_singleton] at hp2
      exact hp2 ▸ h0

/-- The update map of `toolUpd` preserves every entry's key. -/
theorem toolUpd_keyfix (kk k : Option String) (f : ToolExecution → ToolExecution)
    (p : Option String × ToolExecution) :
    ((if p.1 = kk then ((kk, f p.2) : Option String × ToolExecution) else p).1 != k) =
      (p.1 != k) := by
  by_cases h : p.1 = kk
  · rw [if_pos h, ← h]
  · rw [if_neg h]

/-- A key-preserving map commutes with a key filter. -/
theorem filter_map_keyfix {α : Type} (q : α → Bool) (g : α → α) (hg : ∀ x, q (g x) = q x) :
    ∀ l : List α, (l.map g).filter q = (l.filter q).map g
  | [] => rfl
  | x :: l => by
    rw [List.map_cons, List.filter_cons, List.filter_cons, hg]
    by_cases hq : q x = true
    · rw [if_pos hq, if_pos hq, List.map_cons, filter_map_keyfix q g hg l]
    · rw [if_neg hq, if_neg hq, filter_map_keyfix q g hg l]

/-- `eraseKey` commutes with the update map of `toolUpd`. -/
theorem eraseKey_map (k kk : Option String) (f : ToolExecution → ToolExecution)
    (m : List (Option String × ToolExecution)) :
    eraseKey k (m.map (fun p => if p.1 = kk then (kk, f p.2) else p)) =
      (eraseKey k m).map (fun p => if p.1 = kk then (kk, f p.2) else p) :=
  filter_map_keyfix _ _ (toolUpd_keyfix kk k f) m

/-- Updating the erased key leaves the erased table unchanged. -/
theorem eraseKey_toolUpd_self (k : Option String) (f : ToolExecution → ToolExecution)
    (m : List (Option String × ToolExecution)) :
    eraseKey k (toolUpd m k f) = eraseKey k m := by
  unfold toolUpd
  by_cases hmem : m.any (fun q => q.1 == k) = true
  · rw [if_pos hmem, eraseKey_map]
    have hid : ∀ p ∈ eraseKey k m,
        (if p.1 = k then ((k, f p.2) : Option String × ToolExecution) else p) = p := by
      intro p hp
      have hne : (p.1 != k) = true := (List.mem_filter.mp hp).2
      rw [if_neg (by simpa using hne)]
    rw [List.map_congr_left hid]
    exact List.map_id _
  · rw [if_neg hmem]
    have : eraseKey k [(k, f {})] = [] := by simp [eraseKey]
    rw [show eraseKey k (m ++ [(k, f {})]) = eraseKey k m ++ eraseKey k [(k, f {})] from
      List.filter_append _ _, this, List.append_nil]

/-- Presence of a different key is unaffected by `eraseKey`. -/
theorem any_eraseKey (k kk : Option String) (hne : kk ≠ k) :
    ∀ (m : List (Option String × ToolExecution)),
      (eraseKey k m).any (fun q => q.1 == kk) = m.any (fun q => q.1 == kk)
  | [] => rfl
  | p :: rest => by
    show (List.filter _ (p :: rest)).any _ = _
    rw [List.filter_cons]
    by_cases hpk : (p.1 != k) = true
    · rw [if_pos hpk, List.any_cons, List.any_cons]
      exact congrArg (fun b => (p.1 == kk || b)) (any_eraseKey k kk hne rest)
    · rw [if_neg hpk, List.any_cons]
      have hp1 : p.1 = k := by simpa using hpk
      have hpkk : (p.1 == kk) = false := by
        simp [hp1]
        exact fun h => hne h.symm
      rw [hpkk, Bool.false_or]
      exact any_eraseKey k kk hne rest

/-- `eraseKey` commutes with `toolUpd` on a different key. -/
theorem eraseKey_toolUpd_other (k kk : Option String) (hne : kk ≠ k)
    (f : ToolExecution → ToolExecution) (m : List (Option String × ToolExecution)) :
    eraseKey k (toolUpd m kk f) = toolUpd (eraseKey k m) kk f := by
  unfold toolUpd
  rw [any_eraseKey k kk hne m]
  by_cases hmem : m.any (fun q => q.1 == kk) = true
  · rw [if_pos hmem, if_pos hmem]
    exact eraseKey_map k kk f m
  · rw [if_neg hmem, if_neg hmem]
    have : eraseKey k [(kk, f {})] = [(kk, f {})] := by
      simp [eraseKey]
      simpa using hne
    rw [show eraseKey k (m ++ [(kk, f {})]) = eraseKey k m ++ eraseKey k [(kk, f {})] from
      List.filter_append _ _, this]

/-- Two tables agreeing away from a key whose entries are start-less in
both have the same pruned (started-entries) table. -/
theorem prune_table_eq (k : Option String) (T1 T2 : List (Option String × ToolExecution))
    (he : eraseKey k T1 = eraseKey k T2)
    (h1 : ∀ p ∈ T1, p.1 = k → p.2.start = none)
    (h2 : ∀ p ∈ T2, p.1 = k → p.2.start = none) :
    T1.filter (fun p => p.2.start.isSome) = T2.filter (fun p => p.2.start.isSome) := by
  have key : ∀ (T : List (Option String × ToolExecution)),
      (∀ p ∈ T, p.1 = k → p.2.start = none) →
      T.filter (fun p => p.2.start.isSome) =
        (eraseKey k T).filter (fun p => p.2.start.isSome) := by
    intro T hT
    rw [eraseKey, List.filter_filter]
    refine (List.filter_congr ?_).symm
    intro p hp
    by_cases hpk : p.1 = k
    · have : p.2.start = none := hT p hp hpk
      simp [this]
    · simp [hpk]
  rw [key T1 h1, key T2 h2, he]

/-- Turns equal in all fields and related on their tables have equal
prunes. -/
theorem pruneTurn_eq_of_rel (k : Option String) (cu1 cu2 : ConversationTurn)
    (hu : cu1.userMessage = cu2.userMessage)
    (ha : cu1.assistantMessages = cu2.assistantMessages)
    (hm : cu1.activeModel = cu2.activeModel)
    (he : eraseKey k cu1.toolExecutions = eraseKey k cu2.toolExecutions)
    (h1 : ∀ p ∈ cu1.toolExecutions, p.1 = k → p.2.start = none)
    (h2 : ∀ p ∈ cu2.toolExecutions, p.1 = k → p.2.start = none) :
    pruneTurn cu1 = pruneTurn cu2 := by
  cases cu1 with
  | mk u1 a1 t1 m1 =>
    cases cu2 with
    | mk u2 a2 t2 m2 =>
      simp only at hu ha hm he h1 h2
      subst hu ha hm
      unfold pruneTurn
      simp only [ConversationTurn.mk.injEq, and_true, true_and]
      exact prune_table_eq k t1 t2 he h1 h2

/-- Reading the `noStartAtKey` check. -/
theorem noStartAtKey_spec {k : Option String} {cur : ConversationTurn}
    (h : noStartAtKey k (some cur) = true) :
    ∀ p ∈ cur.toolExecutions, p.1 = k → p.2.start = none := by
  intro p hp hpk
  have hall := List.all_eq_true.mp h p hp
  simpa [hpk] using hall

/-- Reading the `noLaterStart` check on a still-open turn. -/
theorem noLaterStart_head {k : Option String} {e : SEvent} {rest : List SEvent}
    (hne : e.type ≠ "user.message")
    (h : noLaterStart k (e :: rest) = true) :
    ¬(e.type = "tool.execution_start" ∧ e.data.toolCallId = k ∧
        isInternalTool e.data.toolName = false) ∧
      noLaterStart k rest = true := by
  unfold noLaterStart at h ⊢
  rw [List.takeWhile_cons, if_pos (by simpa using hne)] at h
  rw [List.all_cons] at h
  rw [Bool.and_eq_true] at h
  constructor
  · intro hx
    have := h.1
    simp [hx.1, hx.2.1, hx.2.2] at this
  · exact h.2

/-- One walk step on states with equal open turn and model keeps them
equal and appends the same turns (up to pruning) to the finished list. -/
theorem walkEvent_rel (st1 st2 : WalkState) (e : SEvent)
    (hcu : st1.currentTurn = st2.currentTurn)
    (hm : st1.currentSessionModel = st2.currentSessionModel)
    (hd : st1.doneTurns.map pruneTurn = st2.doneTurns.map pruneTurn) :
    (walkEvent st1 e).currentTurn = (walkEvent st2 e).currentTurn ∧
    (walkEvent st1 e).currentSessionModel = (walkEvent st2 e).currentSessionModel ∧
    (walkEvent st1 e).doneTurns.map pruneTurn = (walkEvent st2 e).doneTurns.map pruneTurn := by
  by_cases h1 : e.type = "session.model_change"
  · have e1 : walkEvent st1 e = { st1 with currentSessionModel := e.data.newModel } := by
      simp [walkEvent, h1]
    have e2 : walkEvent st2 e = { st2 with currentSessionModel := e.data.newModel } := by
      simp [walkEvent, h1]
    rw [e1, e2]
    exact ⟨hcu, rfl, hd⟩
  by_cases h2 : e.type = "user.message"
  · have e1 : walkEvent st1 e =
        { doneTurns := st1.doneTurns ++ st1.currentTurn.toList,
          currentTurn := some { userMessage := some e, assistantMessages := [], toolExecutions := [], activeModel := st1.currentSessionModel },
          currentSessionModel := st1.currentSessionModel } := by
      simp [walkEvent, h1, h2]
    have e2 : walkEvent st2 e =
        { doneTurns := st2.doneTurns ++ st2.currentTurn.toList,
          currentTurn := some { userMessage := some e, assistantMessages := [], toolExecutions := [], activeModel := st2.currentSessionModel },
          currentSessionModel := st2.currentSessionModel } := by
      simp [walkEvent, h1, h2]
    rw [e1, e2]
    refine ⟨by rw [hm], hm, ?_⟩
    rw [List.map_append, List.map_append, hd, hcu]
  by_cases h3 : e.type = "assistant.message"
  · cases hc : st1.currentTurn with
    | some c =>
      have hc2 : st2.currentTurn = some c := by rw [← hcu]; exact hc
      have e1 : walkEvent st1 e =
          { st1 with currentTurn := some { c with assistantMessages := c.assistantMessages ++ [e] } } := by
        simp [walkEvent, h1, h2, h3, hc]
      have e2 : walkEvent st2 e =
          { st2 with currentTurn := some { c with assistantMessages := c.assistantMessages ++ [e] } } := by
        simp [walkEvent, h1, h2, h3, hc2]
      rw [e1, e2]
      exact ⟨rfl, hm, hd⟩
    | none =>
      have hc2 : st2.currentTurn = none := by rw [← hcu]; exact hc
      have e1 : walkEvent st1 e =
          { st1 with currentTurn := some { userMessage := none, assistantMessages := [e], toolExecutions := [], activeModel := st1.currentSessionModel } } := by
        simp [walkEvent, h1, h2, h3, hc]
      have e2 : walkEvent st2 e =
          { st2 with currentTurn := some { userMessage := none, assistantMessages := [e], toolExecutions := [], activeModel := st2.currentSessionModel } } := by
        simp [walkEvent, h1, h2, h3, hc2]
      rw [e1, e2]
      exact ⟨by rw [hm], hm, hd⟩
  by_cases h4 : e.type = "assistant.usage"
  · cases hc : st1.currentTurn with
    | some c =>
      have hc2 : st2.currentTurn = some c := by rw [← hcu]; exact hc
      by_cases htr : truthy e.data.model = true
      · have e1 : walkEvent st1 e =
            { st1 with currentTurn := some { c with activeModel := e.data.model } } := by
          simp [walkEvent, h1, h2, h3, h4, hc, htr]
        have e2 : walkEvent st2 e =
            { st2 with currentTurn := some { c with activeModel := e.data.model } } := by
          simp [walkEvent, h1, h2, h3, h4, hc2, htr]
        rw [e1, e2]
        exact ⟨rfl, hm, hd⟩
      · have e1 : walkEvent st1 e = st1 := by simp [walkEvent, h1, h2, h3, h4, hc, htr]
        have e2 : walkEvent st2 e = st2 := by simp [walkEvent, h1, h2, h3, h4, hc2, htr]
        rw [e1, e2]
        exact ⟨hcu, hm, hd⟩
    | none =>
      have hc2 : st2.currentTurn = none := by rw [← hcu]; exact hc
      have e1 : walkEvent st1 e = st1 := by simp [walkEvent, h1, h2, h3, h4, hc]
      have e2 : walkEvent st2 e = st2 := by simp [walkEvent, h1, h2, h3, h4, hc2]
      rw [e1, e2]
      exact ⟨hcu, hm, hd⟩
  by_cases h5 : e.type = "tool.execution_start"
  · cases hc : st1.currentTurn with
    | some c =>
      have hc2 : st2.currentTurn = some c := by rw [← hcu]; exact hc
      by_cases hint : isInternalTool e.data.toolName = true
      · have e1 : walkEvent st1 e = st1 := by simp [walkEvent, h1, h2, h3, h4, h5, hc, hint]
        have e2 : walkEvent st2 e = st2 := by simp [walkEvent, h1, h2, h3, h4, h5, hc2, hint]
        rw [e1, e2]
        exact ⟨hcu, hm, hd⟩
      · rw [Bool.not_eq_true] at hint
        have e1 : walkEvent st1 e =
            { st1 with currentTurn := some { c with toolExecutions := toolUpd c.toolExecutions e.data.toolCallId (fun ex => { ex with start := some e }) } } := by
          simp [walkEvent, h1, h2, h3, h4, h5, hc, hint]
        have e2 : walkEvent st2 e =
            { st2 with currentTurn := some { c with toolExecutions := toolUpd c.toolExecutions e.data.toolCallId (fun ex => { ex with start := some e }) } } := by
          simp [walkEvent, h1, h2, h3, h4, h5, hc2, hint]
        rw [e1, e2]
        exact ⟨rfl, hm, hd⟩
    | none =>
      have hc2 : st2.currentTurn = none := by rw [← hcu]; exact hc
      have e1 : walkEvent st1 e = st1 := by simp [walkEvent, h1, h2, h3, h4, h5, hc]
      have e2 : walkEvent st2 e = st2 := by simp [walkEvent, h1, h2, h3, h4, h5, hc2]
      rw [e1, e2]
      exact ⟨hcu, hm, hd⟩
  by_cases h6 : e.type = "tool.execution_complete"
  · cases hc : st1.currentTurn with
    | some c =>
      have hc2 : st2.currentTurn = some c := by rw [← hcu]; exact hc
      have e1 : walkEvent st1 e =
          { st1 with currentTurn := some { c with toolExecutions := toolUpd c.toolExecutions e.data.toolCallId (fun ex => { ex with complete := some e }) } } := by
        simp [walkEvent, h1, h2, h3, h4, h5, h6, hc]
      have e2 : walkEvent st2 e =
          { st2 with currentTurn := some { c with toolExecutions := toolUpd c.toolExecutions e.data.toolCallId (fun ex => { ex with complete := some e }) } } := by
        simp [walkEvent, h1, h2, h3, h4, h5, h6, hc2]
      rw [e1, e2]
      exact ⟨rfl, hm, hd⟩
    | none =>
      have hc2 : st2.currentTurn = none := by rw [← hcu]; exact hc
      have e1 : walkEvent st1 e = st1 := by simp [walkEvent, h1, h2, h3, h4, h5, h6, hc]
      have e2 : walkEvent st2 e = st2 := by simp [walkEvent, h1, h2, h3, h4, h5, h6, hc2]
      rw [e1, e2]
      exact ⟨hcu, hm, hd⟩
  · have e1 : walkEvent st1 e = st1 := by simp [walkEvent, h1, h2, h3, h4, h5, h6]
    have e2 : walkEvent st2 e = st2 := by simp [walkEvent, h1, h2, h3, h4, h5, h6]
    rw [e1, e2]
    exact ⟨hcu, hm, hd⟩

/-- Walking the same events from states with equal open turn and model
yields turns arrays equal up to pruning. -/
theorem walk_fold_rel :
    ∀ (events : List SEvent) (st1 st2 : WalkState),
      st1.currentTurn = st2.currentTurn →
      st1.currentSessionModel = st2.currentSessionModel →
      st1.doneTurns.map pruneTurn = st2.doneTurns.map pruneTurn →
      (turnsArray (events.foldl walkEvent st1)).map pruneTurn =
      (turnsArray (events.foldl walkEvent st2)).map pruneTurn
  | [], st1, st2, hcu, _, hd => by
    simp only [List.foldl_nil, turnsArray]
    rw [List.map_append, List.map_append, hd, hcu]
  | e :: rest, st1, st2, hcu, hm, hd => by
    rw [List.foldl_cons, List.foldl_cons]
    have h := walkEvent_rel st1 st2 e hcu hm hd
    exact walk_fold_rel rest _ _ h.1 h.2.1 h.2.2

/-- Walking the remainder of a session from two states that differ only
in the open turn's start-less entries under one call id (and receive no
later start for that id while the turn stays open) yields turns arrays
equal up to pruning. -/
theorem walk_post_rel (k : Option String) :
    ∀ (events : List SEvent) (st1 st2 : WalkState) (cu1 cu2 : ConversationTurn),
      st1.currentSessionModel = st2.currentSessionModel →
      st1.doneTurns.map pruneTurn = st2.doneTurns.map pruneTurn →
      st1.currentTurn = some cu1 → st2.currentTurn = some cu2 →
      cu1.userMessage = cu2.userMessage →
      cu1.assistantMessages = cu2.assistantMessages →
      cu1.activeModel = cu2.activeModel →
      eraseKey k cu1.toolExecutions = eraseKey k cu2.toolExecutions →
      (∀ p ∈ cu1.toolExecutions, p.1 = k → p.2.start = none) →
      (∀ p ∈ cu2.toolExecutions, p.1 = k → p.2.start = none) →
      noLaterStart k events = true →
      (turnsArray (events.foldl walkEvent st1)).map pruneTurn =
      (turnsArray (events.foldl walkEvent st2)).map pruneTurn
  | [], st1, st2, cu1, cu2, hm, hd, hc1, hc2, hu, ha, hav, he, hs1, hs2, _ => by
    simp only [List.foldl_nil, turnsArray, hc1, hc2]
    rw [List.map_append, List.map_append, hd]
    rw [show (some cu1 : Option ConversationTurn).toList = [cu1] from rfl,
      show (some cu2 : Option ConversationTurn).toList = [cu2] from rfl]
    rw [List.map_cons, List.map_cons, pruneTurn_eq_of_rel k cu1 cu2 hu ha hav he hs1 hs2]
  | e :: rest, st1, st2, cu1, cu2, hm, hd, hc1, hc2, hu, ha, hav, he, hs1, hs2, hlater => by
    rw [List.foldl_cons, List.foldl_cons]
    by_cases hum : e.type = "user.message"
    · have e1 : walkEvent st1 e =
          { doneTurns := st1.doneTurns ++ st1.currentTurn.toList,
            currentTurn := some { userMessage := some e, assistantMessages := [], toolExecutions := [], activeModel := st1.currentSessionModel },
            currentSessionModel := st1.currentSessionModel } := by
        simp [walkEvent, hum]
      have e2 : walkEvent st2 e =
          { doneTurns := st2.doneTurns ++ st2.currentTurn.toList,
            currentTurn := some { userMessage := some e, assistantMessages := [], toolExecutions := [], activeModel := st2.currentSessionModel },
            currentSessionModel := st2.currentSessionModel } := by
        simp [walkEvent, hum]
      refine walk_fold_rel rest _ _ ?_ ?_ ?_
      · rw [e1, e2]
        simp only
        rw [hm]
      · rw [e1, e2]
        exact hm
      · rw [e1, e2]
        simp only
        rw [hc1, hc2]
        rw [show (some cu1 : Option ConversationTurn).toList = [cu1] from rfl,
          show (some cu2 : Option ConversationTurn).toList = [cu2] from rfl]
        rw [List.map_append, List.map_append, hd]
        rw [List.map_cons, List.map_cons, pruneTurn_eq_of_rel k cu1 cu2 hu ha hav he hs1 hs2]
    · obtain ⟨hhead, hrest⟩ := noLaterStart_head hum hlater
      by_cases h1 : e.type = "session.model_change"
      · have e1 : walkEvent st1 e = { st1 with currentSessionModel := e.data.newModel } := by
          simp [walkEvent, h1]
        have e2 : walkEvent st2 e = { st2 with currentSessionModel := e.data.newModel } := by
          simp [walkEvent, h1]
        rw [e1, e2]
        exact walk_post_rel k rest _ _ cu1 cu2 rfl hd hc1 hc2 hu ha hav he hs1 hs2 hrest
      by_cases h3 : e.type = "assistant.message"
      · have e1 : walkEvent st1 e =
            { st1 with currentTurn := some { cu1 with assistantMessages := cu1.assistantMessages ++ [e] } } := by
          simp [walkEvent, h1, hum, h3, hc1]
        have e2 : walkEvent st2 e =
            { st2 with currentTurn := some { cu2 with assistantMessages := cu2.assistantMessages ++ [e] } } := by
          simp [walkEvent, h1, hum, h3, hc2]
        rw [e1, e2]
        refine walk_post_rel k rest _ _ _ _ hm hd rfl rfl hu (by simp only [ha]) hav he hs1 hs2 hrest
      by_cases h4 : e.type = "assistant.usage"
      · by_cases htr : truthy e.data.model = true
        · have e1 : walkEvent st1 e =
              { st1 with currentTurn := some { cu1 with activeModel := e.data.model } } := by
            simp [walkEvent, h1, hum, h3, h4, hc1, htr]
          have e2 : walkEvent st2 e =
              { st2 with currentTurn := some { cu2 with activeModel := e.data.model } } := by
            simp [walkEvent, h1, hum, h3, h4, hc2, htr]
          rw [e1, e2]
          exact walk_post_rel k rest _ _ _ _ hm hd rfl rfl hu ha rfl he hs1 hs2 hrest
        · have e1 : walkEvent st1 e = st1 := by simp [walkEvent, h1, hum, h3, h4, hc1, htr]
          have e2 : walkEvent st2 e = st2 := by simp [walkEvent, h1, hum, h3, h4, hc2, htr]
          rw [e1, e2]
          exact walk_post_rel k rest _ _ cu1 cu2 hm hd hc1 hc2 hu ha hav he hs1 hs2 hrest
      by_cases h5 : e.type = "tool.execution_start"
      · by_cases hint : isInternalTool e.data.toolName = true
        · have e1 : walkEvent st1 e = st1 := by simp [walkEvent, h1, hum, h3, h4, h5, hc1, hint]
          have e2 : walkEvent st2 e = st2 := by simp [walkEvent, h1, hum, h3, h4, h5, hc2, hint]
          rw [e1, e2]
          exact walk_post_rel k rest _ _ cu1 cu2 hm hd hc1 hc2 hu ha hav he hs1 hs2 hrest
        · rw [Bool.not_eq_true] at hint
          have hkk : e.data.toolCallId ≠ k := fun hkkk => hhead ⟨h5, hkkk, hint⟩
          have e1 : walkEvent st1 e =
              { st1 with currentTurn := some { cu1 with toolExecutions := toolUpd cu1.toolExecutions e.data.toolCallId (fun ex => { ex with start := some e }) } } := by
            simp [walkEvent, h1, hum, h3, h4, h5, hc1, hint]
          have e2 : walkEvent st2 e =
              { st2 with currentTurn := some { cu2 with toolExecutions := toolUpd cu2.toolExecutions e.data.toolCallId (fun ex => { ex with start := some e }) } } := by
            simp [walkEvent, h1, hum, h3, h4, h5, hc2, hint]
          rw [e1, e2]
          refine walk_post_rel k rest _ _ _ _ hm hd rfl rfl hu ha hav ?_ ?_ ?_ hrest
          · rw [eraseKey_toolUpd_other k e.data.toolCallId hkk, eraseKey_toolUpd_other k e.data.toolCallId hkk, he]
          · intro p hp
            have hp2 : p ∈ toolUpd cu1.toolExecutions e.data.toolCallId (fun ex => { ex with start := some e }) := hp
            exact toolUpd_preserve2 cu1.toolExecutions e.data.toolCallId _ hs1
              (fun _ _ _ _ hkeq => absurd hkeq hkk) (fun hkeq => absurd hkeq hkk) p hp2
          · intro p hp
            have hp2 : p ∈ toolUpd cu2.toolExecutions e.data.toolCallId (fun ex => { ex with start := some e }) := hp
            exact toolUpd_preserve2 cu2.toolExecutions e.data.toolCallId _ hs2
              (fun _ _ _ _ hkeq => absurd hkeq hkk) (fun hkeq => absurd hkeq hkk) p hp2
      by_cases h6 : e.type = "tool.execution_complete"
      · have e1 : walkEvent st1 e =
            { st1 with currentTurn := some { cu1 with toolExecutions := toolUpd cu1.toolExecutions e.data.toolCallId (fun ex => { ex with complete := some e }) } } := by
          simp [walkEvent, h1, hum, h3, h4, h5, h6, hc1]
        have e2 : walkEvent st2 e =
            { st2 with currentTurn := some { cu2 with toolExecutions := toolUpd cu2.toolExecutions e.data.toolCallId (fun ex => { ex with complete := some e }) } } := by
          simp [walkEvent, h1, hum, h3, h4, h5, h6, hc2]
        rw [e1, e2]
        refine walk_post_rel k rest _ _ _ _ hm hd rfl rfl hu ha hav ?_ ?_ ?_ hrest
        · by_cases hkk : e.data.toolCallId = k
          · rw [hkk, eraseKey_toolUpd_self, eraseKey_toolUpd_self, he]
          · rw [eraseKey_toolUpd_other k e.data.toolCallId hkk, eraseKey_toolUpd_other k e.data.toolCallId hkk, he]
        · intro p hp
          have hp2 : p ∈ toolUpd cu1.toolExecutions e.data.toolCallId (fun ex => { ex with complete := some e }) := hp
          exact toolUpd_preserve2 cu1.toolExecutions e.data.toolCallId _ hs1
            (fun _ _ hpk hQ hkeq => hQ (hpk.trans hkeq)) (fun _ => rfl) p hp2
        · intro p hp
          have hp2 : p ∈ toolUpd cu2.toolExecutions e.data.toolCallId (fun ex => { ex with complete := some e }) := hp
          exact toolUpd_preserve2 cu2.toolExecutions e.data.toolCallId _ hs2
            (fun _ _ hpk hQ hkeq => hQ (hpk.trans hkeq)) (fun _ => rfl) p hp2
      · have e1 : walkEvent st1 e = st1 := by simp [walkEvent, h1, hum, h3, h4, h5, h6]
        have e2 : walkEvent st2 e = st2 := by simp [walkEvent, h1, hum, h3, h4, h5, h6]
        rw [e1, e2]
        exact walk_post_rel k rest _ _ cu1 cu2 hm hd hc1 hc2 hu ha hav he hs1 hs2 hrest

/-! ### C6 -/

/-- Processing a completion whose call id has no recorded start in the
open turn (and receives none while that turn stays open) leaves the
walk's turns unchanged up to pruning. -/
theorem walk_drop (k : Option String) (c : SEvent)
    (hc : c.type = "tool.execution_complete") (hk : c.data.toolCallId = k)
    (post : List SEvent) (st : WalkState)
    (hnow : noStartAtKey k st.currentTurn = true)
    (hlater : noLaterStart k post = true) :
    (turnsArray ((c :: post).foldl walkEvent st)).map pruneTurn =
    (turnsArray (post.foldl walkEvent st)).map pruneTurn := by
  rw [List.foldl_cons]
  cases hcu : st.currentTurn with
  | none =>
    have he : walkEvent st c = st := by simp [walkEvent, hc, hcu]
    rw [he]
  | some cur =>
    rw [hcu] at hnow
    have hs := noStartAtKey_spec hnow
    have he : walkEvent st c =
        { st with currentTurn := some { cur with toolExecutions := toolUpd cur.toolExecutions k (fun ex => { ex with complete := some c }) } } := by
      simp [walkEvent, hc, hcu, hk]
    rw [he]
    refine walk_post_rel k post _ st _ cur rfl rfl rfl hcu rfl rfl rfl ?_ ?_ hs hlater
    · rw [eraseKey_toolUpd_self]
    · intro p hp
      have hp2 : p ∈ toolUpd cur.toolExecutions k (fun ex => { ex with complete := some c }) := hp
      exact toolUpd_preserve2 cur.toolExecutions k _ hs
        (fun _ _ hpk hQ _ => hQ hpk) (fun _ => rfl) p hp2

/-- C6: a `tool_complete` whose callId has no cached matching
`tool_start` is silently discarded. Live mode: the event produces no
posted message and leaves the service and webview states unchanged (the
embedding is total, so no exception). Resume mode, in full generality:
in ANY historical log, a completion whose call id has no recorded start
in the turn-scoped table of the open turn, and for which no non-internal
start with that id arrives while that turn is still open, can be deleted
without changing the reconstruction at all — it emits nothing,
contributes no tool execution to any message, and in particular is never
merged with a start recorded in a different turn when call ids are
reused. As a corollary, a log with no starts at all reconstructs with no
tool events. -/
theorem c6_unmatched_complete_discarded :
    (∀ (now : Nat) (s : ServiceState) (w : WebviewState) (e : SEvent),
      e.type = "tool.execution_complete" →
      mapGet s.pendingToolCalls e.data.toolCallId = none →
      liveStep now (s, w) e = ((s, w), [])) ∧
    (∀ (o : Oracle) (svc : Option String) (e0 c : SEvent) (pre post : List SEvent),
      c.type = "tool.execution_complete" →
      noStartAtKey c.data.toolCallId
        (((e0 :: pre).foldl walkEvent
          { doneTurns := [], currentTurn := none,
            currentSessionModel := if truthy e0.data.selectedModel then e0.data.selectedModel else none }).currentTurn) = true →
      noLaterStart c.data.toolCallId post = true →
      resumeMessages o svc ((e0 :: pre) ++ c :: post) =
        resumeMessages o svc ((e0 :: pre) ++ post)) ∧
    (∀ (o : Oracle) (svc : Option String) (events : List SEvent),
      noToolStarts events = true → noToolEvents (resumeOr o svc events) = true) := by
  refine ⟨?_, ?_, ?_⟩
  · intro now s w e h1 h2
    simp [liveStep, handleEvent, h1, h2]
  · intro o svc e0 c pre post hc hnow hlater
    have hT : (walkTurns (if truthy e0.data.selectedModel then e0.data.selectedModel else none)
          ((e0 :: pre) ++ c :: post)).map pruneTurn =
        (walkTurns (if truthy e0.data.selectedModel then e0.data.selectedModel else none)
          ((e0 :: pre) ++ post)).map pruneTurn := by
      show (turnsArray (((e0 :: pre) ++ c :: post).foldl walkEvent _)).map pruneTurn =
        (turnsArray (((e0 :: pre) ++ post).foldl walkEvent _)).map pruneTurn
      rw [List.foldl_append, List.foldl_append]
      exact walk_drop c.data.toolCallId c hc rfl post _ hnow hlater
    have hfold : (walkTurns (if truthy e0.data.selectedModel then e0.data.selectedModel else none)
          ((e0 :: pre) ++ c :: post)).foldl (buildTurn o svc)
          { messages := [], lastUsedModel := none, k := 0 } =
        (walkTurns (if truthy e0.data.selectedModel then e0.data.selectedModel else none)
          ((e0 :: pre) ++ post)).foldl (buildTurn o svc)
          { messages := [], lastUsedModel := none, k := 0 } := by
      rw [← build_prune o svc
        (walkTurns (if truthy e0.data.selectedModel then e0.data.selectedModel else none)
          ((e0 :: pre) ++ c :: post))]
      rw [← build_prune o svc
        (walkTurns (if truthy e0.data.selectedModel then e0.data.selectedModel else none)
          ((e0 :: pre) ++ post))]
      rw [hT]
    have hr1 : resumeMessages o svc ((e0 :: pre) ++ c :: post) =
        Except.ok (((walkTurns (if truthy e0.data.selectedModel then e0.data.selectedModel else none)
          ((e0 :: pre) ++ c :: post)).foldl (buildTurn o svc)
          { messages := [], lastUsedModel := none, k := 0 }).messages.filter
          (fun msg => jsTrim msg.content != "")) := rfl
    have hr2 : resumeMessages o svc ((e0 :: pre) ++ post) =
        Except.ok (((walkTurns (if truthy e0.data.selectedModel then e0.data.selectedModel else none)
          ((e0 :: pre) ++ post)).foldl (buildTurn o svc)
          { messages := [], lastUsedModel := none, k := 0 }).messages.filter
          (fun msg => jsTrim msg.content != "")) := rfl
    rw [hr1, hr2, hfold]
  · intro o svc events hns
    have hns2 : ∀ e ∈ events, e.type ≠ "tool.execution_start" := by
      intro e he
      have := List.all_eq_true.mp hns e he
      simpa using this
    cases events with
    | nil => rfl
    | cons e es =>
      have hturns : ∀ t ∈ walkTurns (if truthy e.data.selectedModel then e.data.selectedModel else none) (e :: es),
          ∀ p ∈ t.toolExecutions, p.2.start = none := by
        refine walkTurns_execs (Q := fun p => p.2.start = none) _ _ ?_ ?_ ?_
        · intro ev hev htype
          exact absurd htype (hns2 ev hev)
        · intro ev _ k p hp
          simpa using hp
        · intro ev _ k
          rfl
      have hmsgs := build_no_toolEvents o svc
        (walkTurns (if truthy e.data.selectedModel then e.data.selectedModel else none) (e :: es)) hturns
        { messages := [], lastUsedModel := none, k := 0 } (by intro m hm; simp at hm)
      rw [noToolEvents, List.all_eq_true]
      intro m hm
      have hr : resumeOr o svc (e :: es) =
          ((walkTurns (if truthy e.data.selectedModel then e.data.selectedModel else none)
              (e :: es)).foldl (buildTurn o svc)
            { messages := [], lastUsedModel := none, k := 0 }).messages.filter
            (fun msg => jsTrim msg.content != "") := rfl
      rw [hr] at hm
      have hm2 := List.mem_of_mem_filter hm
      simpa using hmsgs m hm2

/-- C6 witness: the theorem at a concrete unmatched completion in live
mode; at a concrete log reusing call id `x` across turns (started and
completed in turn one, orphan completion in turn two) whose deletion
leaves the reconstruction unchanged; and at a concrete start-free log. -/
theorem c6_witness :
    liveStep 0 (({} : ServiceState), ({} : WebviewState)) (toolCompleteEv "c1" true) =
      ((({} : ServiceState), ({} : WebviewState)), []) ∧
    resumeMessages oracle0 none
        ((um "u1" (some "m1") :: [toolStartEv "x" "view", toolCompleteEv "x" true, um "u2"]) ++
          toolCompleteEv "x" false :: [am "a2"]) =
      resumeMessages oracle0 none
        ((um "u1" (some "m1") :: [toolStartEv "x" "view", toolCompleteEv "x" true, um "u2"]) ++
          [am "a2"]) ∧
    noToolEvents (resumeOr oracle0 none
      [um "hi" (some "m1"), toolCompleteEv "c1" true]) = true := by
  refine ⟨?_, ?_, ?_⟩
  · exact c6_unmatched_complete_discarded.1 0 {} {} (toolCompleteEv "c1" true) rfl rfl
  · exact c6_unmatched_complete_discarded.2.1 oracle0 none (um "u1" (some "m1"))
      (toolCompleteEv "x" false) [toolStartEv "x" "view", toolCompleteEv "x" true, um "u2"]
      [am "a2"] rfl (by decide) (by decide)
  · exact c6_unmatched_complete_discarded.2.2 oracle0 none
      [um "hi" (some "m1"), toolCompleteEv "c1" true] (by decide)

/-- The displayed tool name of a non-internal (or absent) tool name is
never in the internal allow-list (the fallback is `"unknown"`). -/
theorem toolNameStr_not_internal {t : Option String} (h : isInternalTool t = false) :
    internalTools.contains (toolNameStr t) = false := by
  cases t with
  | none => decide
  | some s =>
    by_cases hs : s = ""
    · subst hs; decide
    · simpa [toolNameStr, truthy, jsS, hs, isInternalTool] using h

/-- Folding execution entries whose recorded starts are all non-internal
emits only non-internal display tool events. -/
theorem turnToolEvents_names (o : Oracle) :
    ∀ (l : List (Option String × ToolExecution)),
      (∀ p ∈ l, ∀ s, p.2.start = some s → isInternalTool s.data.toolName = false) →
      ∀ (acc : List ToolEventOut × Nat),
        (∀ te ∈ acc.1, internalTools.contains te.toolName = false) →
        ∀ te ∈ (l.foldl (turnToolStep o) acc).1, internalTools.contains te.toolName = false
  | [], _, _, hacc => hacc
  | p :: rest, hl, acc, hacc => by
    rw [List.foldl_cons]
    refine turnToolEvents_names o rest (fun q hq s hs => hl q (by simp [hq]) s hs)
      (turnToolStep o acc p) ?_
    intro te hte
    cases hs : p.2.start with
    | none =>
      rw [show turnToolStep o acc p = acc from by simp [turnToolStep, hs]] at hte
      exact hacc te hte
    | some s =>
      have hni : isInternalTool s.data.toolName = false := hl p (by simp) s hs
      simp only [turnToolStep, hs] at hte
      rcases List.mem_append.mp hte with h1 | h2
      · exact hacc te h1
      · rw [List.mem_singleton] at h2
        subst h2
        cases hc : p.2.complete with
        | none =>
          simp only [hc, createToolEvent]
          exact toolNameStr_not_internal hni
        | some c =>
          simp only [hc, createToolEvent]
          exact toolNameStr_not_internal hni

/-- Building from turns whose recorded starts are all non-internal
yields messages whose tool events are all non-internal. -/
theorem build_toolOk (o : Oracle) (svc : Option String)
    (turns : List ConversationTurn)
    (hturns : ∀ t ∈ turns, ∀ p ∈ t.toolExecutions, ∀ s, p.2.start = some s →
      isInternalTool s.data.toolName = false)
    (b : BuildState)
    (hb : ∀ m ∈ b.messages, ∀ te ∈ m.toolEvents.getD [],
      internalTools.contains te.toolName = false) :
    ∀ m ∈ (turns.foldl (buildTurn o svc) b).messages,
      ∀ te ∈ m.toolEvents.getD [], internalTools.contains te.toolName = false := by
  refine foldl_preserve
    (P := fun b2 => ∀ m ∈ b2.messages, ∀ te ∈ m.toolEvents.getD [],
      internalTools.contains te.toolName = false) turns b hb ?_
  intro b2 t ht hbm
  have hassist : ∀ (b3 : BuildState),
      (∀ m ∈ b3.messages, ∀ te ∈ m.toolEvents.getD [],
        internalTools.contains te.toolName = false) →
      ∀ m ∈ (t.assistantMessages.foldl (buildAssistant o svc t) b3).messages,
        ∀ te ∈ m.toolEvents.getD [], internalTools.contains te.toolName = false := by
    intro b3 hb3
    refine foldl_preserve
      (P := fun b4 => ∀ m ∈ b4.messages, ∀ te ∈ m.toolEvents.getD [],
        internalTools.contains te.toolName = false) t.assistantMessages b3 hb3 ?_
    intro b4 ae _ hb4 m hm
    simp only [buildAssistant, List.mem_append] at hm
    rcases hm with hm1 | hm2
    · exact hb4 m hm1
    · rw [List.mem_singleton] at hm2
      subst hm2
      intro te hte
      have hnames := turnToolEvents_names o t.toolExecutions (hturns t ht)
        ([], b4.k) (by intro x hx; simp at hx)
      by_cases hlen : (turnToolEvents o b4.k t).1.length > 0
      · simp only [hlen, if_true, Option.getD_some] at hte
        exact hnames te (by simpa [turnToolEvents] using hte)
      · simp only [hlen, if_false, Option.getD_none] at hte
        simp at hte
  cases hu : t.userMessage with
  | some umsg =>
    simp only [buildTurn, hu]
    refine hassist _ ?_
    intro m hm
    simp only [List.mem_append] at hm
    rcases hm with hm1 | hm2
    · exact hbm m hm1
    · rw [List.mem_singleton] at hm2
      subst hm2
      intro te hte
      simp at hte
  | none =>
    simp only [buildTurn, hu]
    exact hassist b2 hbm

/-- `mapSet` preserves a property of cache entries. -/
theorem mapSet_all {P : Option String × PendingTool → Prop}
    (m : List (Option String × PendingTool)) (k : Option String) (v : PendingTool)
    (h : ∀ p ∈ m, P p) (hv : P (k, v)) :
    ∀ p ∈ mapSet m k v, P p := by
  intro p hp
  unfold mapSet at hp
  by_cases hmem : m.any (fun q => q.1 == k) = true
  · rw [if_pos hmem] at hp
    rcases List.mem_map.mp hp with ⟨q, hq, hqe⟩
    by_cases hqk : q.1 = k
    · rw [if_pos hqk] at hqe
      exact hqe ▸ hv
    · rw [if_neg hqk] at hqe
      exact hqe ▸ h q hq
  · rw [if_neg hmem] at hp
    rcases List.mem_append.mp hp with h1 | h2
    · exact h p h1
    · rw [List.mem_singleton] at h2
      exact h2 ▸ hv

/-- A cached entry found by `mapGet` inherits the cache invariant. -/
theorem mapGet_not_internal {m : List (Option String × PendingTool)}
    {k : Option String} {v : PendingTool}
    (h : ∀ p ∈ m, isInternalTool p.2.toolName = false)
    (hg : mapGet m k = some v) : isInternalTool v.toolName = false := by
  unfold mapGet at hg
  rcases Option.map_eq_some'.mp hg with ⟨pr, hfind, hpr⟩
  exact hpr ▸ h pr (List.mem_of_find?_eq_some hfind)

/-- One live event preserves the pending-cache invariant and posts only
non-internal tool indicators. -/
theorem handleEvent_toolOk (now : Nat) (s : ServiceState) (e : SEvent)
    (h : ∀ p ∈ s.pendingToolCalls, isInternalTool p.2.toolName = false) :
    (∀ p ∈ (handleEvent now s e).1.pendingToolCalls, isInternalTool p.2.toolName = false) ∧
    ∀ msg ∈ (handleEvent now s e).2, serverMsgToolOk msg = true := by
  by_cases h1 : e.type = "assistant.message_delta"
  · exact ⟨fun p hp => h p (by simpa [handleEvent, h1] using hp),
      by simp [handleEvent, h1, serverMsgToolOk]⟩
  by_cases h2 : e.type = "assistant.message"
  · exact ⟨fun p hp => h p (by simpa [handleEvent, h1, h2] using hp),
      by simp [handleEvent, h1, h2, serverMsgToolOk]⟩
  by_cases h3 : e.type = "session.idle"
  · exact ⟨fun p hp => h p (by simpa [handleEvent, h1, h2, h3] using hp),
      by simp [handleEvent, h1, h2, h3, serverMsgToolOk]⟩
  by_cases h4 : e.type = "session.usage_info"
  · exact ⟨fun p hp => h p (by simpa [handleEvent, h1, h2, h3, h4] using hp),
      by simp [handleEvent, h1, h2, h3, h4, serverMsgToolOk]⟩
  by_cases h5 : e.type = "tool.execution_start"
  · by_cases hint : isInternalTool e.data.toolName = true
    · exact ⟨fun p hp => h p (by simpa [handleEvent, h1, h2, h3, h4, h5, hint] using hp),
        by simp [handleEvent, h1, h2, h3, h4, h5, hint]⟩
    · rw [Bool.not_eq_true] at hint
      constructor
      · intro p hp
        have hp2 : p ∈ mapSet s.pendingToolCalls e.data.toolCallId
            { toolName := e.data.toolName, arguments := e.data.arguments.getD {} } := by
          simpa [handleEvent, h1, h2, h3, h4, h5, hint] using hp
        exact mapSet_all s.pendingToolCalls _ _ h hint p hp2
      · intro msg hmsg
        have he : (handleEvent now s e).2 =
            [ServerMsg.toolEvent s.currentMessageId (createToolEvent now e.data "loading")] := by
          simp [handleEvent, h1, h2, h3, h4, h5, hint]
        rw [he, List.mem_singleton] at hmsg
        subst hmsg
        simp only [serverMsgToolOk, createToolEvent]
        simpa using toolNameStr_not_internal hint
  by_cases h6 : e.type = "tool.execution_complete"
  · cases hg : mapGet s.pendingToolCalls e.data.toolCallId with
    | none =>
      exact ⟨fun p hp => h p (by simpa [handleEvent, h1, h2, h3, h4, h5, h6, hg] using hp),
        by simp [handleEvent, h1, h2, h3, h4, h5, h6, hg]⟩
    | some cached =>
      constructor
      · intro p hp
        have hp2 : p ∈ mapDel s.pendingToolCalls e.data.toolCallId := by
          simpa [handleEvent, h1, h2, h3, h4, h5, h6, hg] using hp
        exact h p (List.mem_of_mem_filter hp2)
      · intro msg hmsg
        have he : (handleEvent now s e).2 =
            [ServerMsg.toolEvent s.currentMessageId
              (createToolEvent now
                { e.data with toolName := cached.toolName, arguments := some cached.arguments }
                (if e.data.success = some true then "success" else "error"))] := by
          simp [handleEvent, h1, h2, h3, h4, h5, h6, hg]
        rw [he, List.mem_singleton] at hmsg
        subst hmsg
        simp only [serverMsgToolOk, createToolEvent]
        simpa using toolNameStr_not_internal (mapGet_not_internal h hg)
  by_cases h7 : e.type = "session.error"
  · exact ⟨fun p hp => h p (by simpa [handleEvent, h1, h2, h3, h4, h5, h6, h7] using hp),
      by simp [handleEvent, h1, h2, h3, h4, h5, h6, h7, serverMsgToolOk]⟩
  · exact ⟨fun p hp => h p (by simpa [handleEvent, h1, h2, h3, h4, h5, h6, h7] using hp),
      by simp [handleEvent, h1, h2, h3, h4, h5, h6, h7]⟩

/-- Running a live trace from a state whose cache holds only
non-internal tools posts only non-internal tool indicators. -/
theorem runLiveTrace_toolOk (o : Oracle) :
    ∀ (es : List SEvent) (k : Nat) (st : ServiceState × WebviewState),
      (∀ p ∈ st.1.pendingToolCalls, isInternalTool p.2.toolName = false) →
      ∀ msg ∈ (runLiveTrace o k st es).2, serverMsgToolOk msg = true
  | [], _, _, _ => by simp [runLiveTrace]
  | e :: es, k, st, h => by
    intro msg hmsg
    have hhe := handleEvent_toolOk (o.now k) st.1 e h
    simp only [runLiveTrace, liveStep] at hmsg
    rw [List.mem_append] at hmsg
    rcases hmsg with hl | hr
    · exact hhe.2 msg hl
    · exact runLiveTrace_toolOk o es (k + 1) _ hhe.1 msg hr

/-! ### C5 -/

/-- C5: internal tool names (`report_intent`, `suggest_mode`) never
appear in any emitted tool indicator. Live mode: every tool event posted
while processing any event sequence from the initial state carries a
non-internal tool name. Resume mode: every tool event attached to any
reconstructed message carries a non-internal tool name. -/
theorem c5_internal_tools_never_surfaced :
    (∀ (o : Oracle) (es : List SEvent),
      (runLiveTrace o 0 ({}, {}) es).2.all serverMsgToolOk = true) ∧
    (∀ (o : Oracle) (svc : Option String) (events : List SEvent),
      chatToolOk (resumeOr o svc events) = true) := by
  constructor
  · intro o es
    rw [List.all_eq_true]
    exact runLiveTrace_toolOk o es 0 ({}, {}) (by intro p hp; simp at hp)
  · intro o svc events
    cases events with
    | nil => rfl
    | cons e es =>
      have hturns := walkTurns_execs
        (Q := fun p => ∀ s, p.2.start = some s → isInternalTool s.data.toolName = false)
        (if truthy e.data.selectedModel then e.data.selectedModel else none) (e :: es)
        (by
          intro ev _ _ hint k ex s hs
          simp only [] at hs
          cases hs
          exact hint)
        (by
          intro ev _ k p hQ s hs
          exact hQ s hs)
        (by
          intro ev _ k s hs
          simp at hs)
      have hmsgs := build_toolOk o svc
        (walkTurns (if truthy e.data.selectedModel then e.data.selectedModel else none) (e :: es))
        hturns { messages := [], lastUsedModel := none, k := 0 } (by intro m hm; simp at hm)
      rw [chatToolOk, List.all_eq_true]
      intro m hm
      have hr : resumeOr o svc (e :: es) =
          ((walkTurns (if truthy e.data.selectedModel then e.data.selectedModel else none)
              (e :: es)).foldl (buildTurn o svc)
            { messages := [], lastUsedModel := none, k := 0 }).messages.filter
            (fun msg => jsTrim msg.content != "") := rfl
      rw [hr] at hm
      have hm2 := List.mem_of_mem_filter hm
      rw [List.all_eq_true]
      intro te hte
      simpa using hmsgs m hm2 te hte

/-- The strip of a built tool event does not depend on the clock tick. -/
theorem createToolEvent_strip (n1 n2 : Nat) (d : EventData) (st : String) :
    stripToolEvent (createToolEvent n1 d st) = stripToolEvent (createToolEvent n2 d st) := rfl

/-- Folding execution entries under two different oracles yields
strip-equal tool event lists and equal final ticks. -/
theorem turnToolEvents_strip (o1 o2 : Oracle) :
    ∀ (l : List (Option String × ToolExecution)) (a1 a2 : List ToolEventOut × Nat),
      a1.1.map stripToolEvent = a2.1.map stripToolEvent → a1.2 = a2.2 →
      ((l.foldl (turnToolStep o1) a1).1.map stripToolEvent =
        (l.foldl (turnToolStep o2) a2).1.map stripToolEvent) ∧
      (l.foldl (turnToolStep o1) a1).2 = (l.foldl (turnToolStep o2) a2).2
  | [], _, _, h1, h2 => ⟨h1, h2⟩
  | p :: rest, a1, a2, h1, h2 => by
    rw [List.foldl_cons, List.foldl_cons]
    cases hs : p.2.start with
    | none =>
      rw [show turnToolStep o1 a1 p = a1 from by simp [turnToolStep, hs],
          show turnToolStep o2 a2 p = a2 from by simp [turnToolStep, hs]]
      exact turnToolEvents_strip o1 o2 rest a1 a2 h1 h2
    | some s =>
      refine turnToolEvents_strip o1 o2 rest _ _ ?_ ?_
      · simp only [turnToolStep, hs, List.map_append, h1]
        congr 1
      · simp [turnToolStep, hs, h2]

/-- The strip of the assistant message built for one assistant event does
not depend on the oracle (given equal ticks). -/
theorem buildAssistant_strip (o1 o2 : Oracle) (svc : Option String) (t : ConversationTurn) :
    ∀ (l : List SEvent) (b1 b2 : BuildState),
      b1.messages.map stripMsg = b2.messages.map stripMsg →
      b1.lastUsedModel = b2.lastUsedModel → b1.k = b2.k →
      ((l.foldl (buildAssistant o1 svc t) b1).messages.map stripMsg =
        (l.foldl (buildAssistant o2 svc t) b2).messages.map stripMsg) ∧
      (l.foldl (buildAssistant o1 svc t) b1).lastUsedModel =
        (l.foldl (buildAssistant o2 svc t) b2).lastUsedModel ∧
      (l.foldl (buildAssistant o1 svc t) b1).k =
        (l.foldl (buildAssistant o2 svc t) b2).k
  | [], _, _, hm, hl, hk => ⟨hm, hl, hk⟩
  | ae :: rest, b1, b2, hm, hl, hk => by
    rw [List.foldl_cons, List.foldl_cons]
    have hte := turnToolEvents_strip o1 o2 t.toolExecutions ([], b1.k) ([], b2.k) rfl hk
    have hte1 : (turnToolEvents o1 b1.k t).1.map stripToolEvent =
        (turnToolEvents o2 b2.k t).1.map stripToolEvent := hte.1
    have hte2 : (turnToolEvents o1 b1.k t).2 = (turnToolEvents o2 b2.k t).2 := hte.2
    have hlen : (turnToolEvents o1 b1.k t).1.length = (turnToolEvents o2 b2.k t).1.length := by
      have := congrArg List.length hte1
      simpa using this
    refine buildAssistant_strip o1 o2 svc t rest _ _ ?_ ?_ ?_
    · simp only [buildAssistant, List.map_append, hm]
      congr 1
      simp only [List.map_cons, List.map_nil, List.cons.injEq, and_true]
      simp only [stripMsg]
      by_cases hpos : (turnToolEvents o1 b1.k t).1.length > 0
      · have hpos2 : (turnToolEvents o2 b2.k t).1.length > 0 := hlen ▸ hpos
        simp [hpos, hpos2, hte1]
      · have hpos2 : ¬ (turnToolEvents o2 b2.k t).1.length > 0 := hlen ▸ hpos
        simp [hpos, hpos2]
    · simp only [buildAssistant, hl]
    · simp only [buildAssistant, hte2]

/-- Building a turn under two different oracles yields strip-equal
message lists, the same last-used model and equal ticks. -/
theorem buildTurn_strip (o1 o2 : Oracle) (svc : Option String) :
    ∀ (turns : List ConversationTurn) (b1 b2 : BuildState),
      b1.messages.map stripMsg = b2.messages.map stripMsg →
      b1.lastUsedModel = b2.lastUsedModel → b1.k = b2.k →
      ((turns.foldl (buildTurn o1 svc) b1).messages.map stripMsg =
        (turns.foldl (buildTurn o2 svc) b2).messages.map stripMsg) ∧
      (turns.foldl (buildTurn o1 svc) b1).lastUsedModel =
        (turns.foldl (buildTurn o2 svc) b2).lastUsedModel ∧
      (turns.foldl (buildTurn o1 svc) b1).k = (turns.foldl (buildTurn o2 svc) b2).k
  | [], _, _, hm, hl, hk => ⟨hm, hl, hk⟩
  | t :: rest, b1, b2, hm, hl, hk => by
    rw [List.foldl_cons, List.foldl_cons]
    cases hu : t.userMessage with
    | some umsg =>
      have hstep := buildAssistant_strip o1 o2 svc t t.assistantMessages
        { messages := b1.messages ++ [{ id := freshMsgId o1 b1.k, role := Role.user, content := jsOrStr umsg.data.content "", timestamp := o1.now b1.k, model := none, toolEvents := none }], lastUsedModel := b1.lastUsedModel, k := b1.k + 1 }
        { messages := b2.messages ++ [{ id := freshMsgId o2 b2.k, role := Role.user, content := jsOrStr umsg.data.content "", timestamp := o2.now b2.k, model := none, toolEvents := none }], lastUsedModel := b2.lastUsedModel, k := b2.k + 1 }
        (by simp [hm, stripMsg]) hl (by simp [hk])
      refine buildTurn_strip o1 o2 svc rest _ _ ?h1 ?h2 ?h3
      case h1 =>
        simpa only [buildTurn, hu] using hstep.1
      case h2 =>
        simpa only [buildTurn, hu] using hstep.2.1
      case h3 =>
        simpa only [buildTurn, hu] using hstep.2.2
    | none =>
      refine buildTurn_strip o1 o2 svc rest _ _ ?g1 ?g2 ?g3
      case g1 =>
        simp only [buildTurn, hu]
        exact (buildAssistant_strip o1 o2 svc t t.assistantMessages b1 b2 hm hl hk).1
      case g2 =>
        simp only [buildTurn, hu]
        exact (buildAssistant_strip o1 o2 svc t t.assistantMessages b1 b2 hm hl hk).2.1
      case g3 =>
        simp only [buildTurn, hu]
        exact (buildAssistant_strip o1 o2 svc t t.assistantMessages b1 b2 hm hl hk).2.2

/-- Strip-equal message lists stay strip-equal after the blank filter
(the filter only reads the content, which stripping preserves). -/
theorem filter_strip :
    ∀ (l1 l2 : List ChatMessage), l1.map stripMsg = l2.map stripMsg →
      (l1.filter (fun msg => jsTrim msg.content != "")).map stripMsg =
      (l2.filter (fun msg => jsTrim msg.content != "")).map stripMsg
  | [], [], _ => rfl
  | [], _ :: _, h => by simp at h
  | _ :: _, [], h => by simp at h
  | m1 :: l1, m2 :: l2, h => by
    simp only [List.map_cons, List.cons.injEq] at h
    have hc : m1.content = m2.content := by
      have := congrArg ChatMessage.content h.1
      simpa [stripMsg] using this
    rw [List.filter_cons, List.filter_cons, hc]
    by_cases hp : (jsTrim m2.content != "") = true
    · rw [if_pos hp, if_pos hp, List.map_cons, List.map_cons, h.1, filter_strip l1 l2 h.2]
    · rw [if_neg hp, if_neg hp]
      exact filter_strip l1 l2 h.2

/-! ### C3 -/

/-- C3 counterexample: reconstructing the same one-event log at two
different wall-clock/randomness states (two runs) yields message lists
that are not byte-identical: the generated message ids and timestamps
differ. -/
theorem c3_counterexample :
    resumeMessages oracle0 none [um "hi" (some "m1")] ≠
      resumeMessages oracle1 none [um "hi" (some "m1")] := by
  decide

/-- C3 (amended): reconstruction is deterministic given the log UP TO
the freshly generated fields: for every log and any two clock/randomness
supplies, the two reconstructions agree once the generated message ids,
message timestamps, tool-event ids, tool-event timestamps and the
tool-event `toolCallId` display field (whose fallback embeds the clock)
are erased. Ids and timestamps come from `Date.now()`/`Math.random()`,
so two runs are not byte-identical. -/
theorem c3_amended (o1 o2 : Oracle) (svc : Option String) (events : List SEvent) :
    stripRun (resumeMessages o1 svc events) = stripRun (resumeMessages o2 svc events) := by
  cases events with
  | nil => rfl
  | cons e es =>
    show Except.ok ((resumeBuild o1 svc (walkTurns _ (e :: es))).1.map stripMsg) =
      Except.ok ((resumeBuild o2 svc (walkTurns _ (e :: es))).1.map stripMsg)
    congr 1
    exact filter_strip _ _
      (buildTurn_strip o1 o2 svc _
        { messages := [], lastUsedModel := none, k := 0 }
        { messages := [], lastUsedModel := none, k := 0 } rfl rfl rfl).1

/-- Appending one turn appends exactly its user content. -/
theorem turnsUsers_append_single (A : List ConversationTurn) (t : ConversationTurn) :
    turnsUsers (A ++ [t]) = turnsUsers A ++ (turnUser t).toList := by
  cases h : turnUser t <;>
    simp [turnsUsers, List.filterMap_append, List.filterMap_cons, h]

/-- One walk step appends exactly the non-blank user content of the
event (if it is a `user.message`) to the turns' user contents. -/
theorem walkEvent_users (st : WalkState) (e : SEvent) :
    turnsUsers ((walkEvent st e).doneTurns ++ (walkEvent st e).currentTurn.toList) =
      turnsUsers (st.doneTurns ++ st.currentTurn.toList) ++ userContentsOfLog [e] := by
  by_cases h1 : e.type = "session.model_change"
  · have he : walkEvent st e = { st with currentSessionModel := e.data.newModel } := by
      simp [walkEvent, h1]
    rw [he]
    show turnsUsers (st.doneTurns ++ st.currentTurn.toList) = _
    rw [show userContentsOfLog [e] = [] from by simp [userContentsOfLog, h1], List.append_nil]
  by_cases h2 : e.type = "user.message"
  · have he : (walkEvent st e).doneTurns ++ (walkEvent st e).currentTurn.toList =
        (st.doneTurns ++ st.currentTurn.toList) ++
        [{ userMessage := some e, assistantMessages := [], toolExecutions := [],
           activeModel := st.currentSessionModel }] := by
      simp [walkEvent, h1, h2]
    rw [he, turnsUsers_append_single]
    congr 1
    rw [turnUser, Option.some_bind, userContentsOfLog]
    simp only [List.filterMap_cons, List.filterMap_nil, h2, reduceIte]
    by_cases hb : jsTrim (jsOrStr e.data.content "") = ""
    · simp [hb]
    · simp [hb]
  by_cases h3 : e.type = "assistant.message"
  · have hucl : userContentsOfLog [e] = [] := by simp [userContentsOfLog, h2]
    rw [hucl, List.append_nil]
    cases hc : st.currentTurn with
    | some c =>
      have he : (walkEvent st e).doneTurns ++ (walkEvent st e).currentTurn.toList =
          st.doneTurns ++ [{ c with assistantMessages := c.assistantMessages ++ [e] }] := by
        simp [walkEvent, h1, h2, h3, hc]
      rw [he, turnsUsers_append_single]
      rw [show ((some c : Option ConversationTurn).toList) = [c] from rfl]
      rw [turnsUsers_append_single]
      rfl
    | none =>
      have he : (walkEvent st e).doneTurns ++ (walkEvent st e).currentTurn.toList =
          st.doneTurns ++
          [{ userMessage := none, assistantMessages := [e], toolExecutions := [],
             activeModel := st.currentSessionModel }] := by
        simp [walkEvent, h1, h2, h3, hc]
      rw [he, turnsUsers_append_single]
      rw [show ((none : Option ConversationTurn).toList) = [] from rfl, List.append_nil]
      simp [turnUser]
  by_cases h4 : e.type = "assistant.usage"
  · have hucl : userContentsOfLog [e] = [] := by simp [userContentsOfLog, h2]
    rw [hucl, List.append_nil]
    cases hc : st.currentTurn with
    | some c =>
      by_cases htr : truthy e.data.model = true
      · have he : (walkEvent st e).doneTurns ++ (walkEvent st e).currentTurn.toList =
            st.doneTurns ++ [{ c with activeModel := e.data.model }] := by
          simp [walkEvent, h1, h2, h3, h4, hc, htr]
        rw [he, turnsUsers_append_single]
        rw [show ((some c : Option ConversationTurn).toList) = [c] from rfl]
        rw [turnsUsers_append_single]
        rfl
      · have he : walkEvent st e = st := by
          simp [walkEvent, h1, h2, h3, h4, hc, htr]
        rw [he, hc]
    | none =>
      have he : walkEvent st e = st := by
        simp [walkEvent, h1, h2, h3, h4, hc]
      rw [he, hc]
  by_cases h5 : e.type = "tool.execution_start"
  · have hucl : userContentsOfLog [e] = [] := by simp [userContentsOfLog, h2]
    rw [hucl, List.append_nil]
    cases hc : st.currentTurn with
    | some c =>
      by_cases hint : isInternalTool e.data.toolName = true
      · have he : walkEvent st e = st := by
          simp [walkEvent, h1, h2, h3, h4, h5, hc, hint]
        rw [he, hc]
      · rw [Bool.not_eq_true] at hint
        have he : (walkEvent st e).doneTurns ++ (walkEvent st e).currentTurn.toList =
            st.doneTurns ++
            [{ c with toolExecutions := toolUpd c.toolExecutions e.data.toolCallId (fun ex => { ex with start := some e }) }] := by
          simp [walkEvent, h1, h2, h3, h4, h5, hc, hint]
        rw [he, turnsUsers_append_single]
        rw [show ((some c : Option ConversationTurn).toList) = [c] from rfl]
        rw [turnsUsers_append_single]
        rfl
    | none =>
      have he : walkEvent st e = st := by
        simp [walkEvent, h1, h2, h3, h4, h5, hc]
      rw [he, hc]
  by_cases h6 : e.type = "tool.execution_complete"
  · have hucl : userContentsOfLog [e] = [] := by simp [userContentsOfLog, h2]
    rw [hucl, List.append_nil]
    cases hc : st.currentTurn with
    | some c =>
      have he : (walkEvent st e).doneTurns ++ (walkEvent st e).currentTurn.toList =
          st.doneTurns ++
          [{ c with toolExecutions := toolUpd c.toolExecutions e.data.toolCallId (fun ex => { ex with complete := some e }) }] := by
        simp [walkEvent, h1, h2, h3, h4, h5, h6, hc]
      rw [he, turnsUsers_append_single]
      rw [show ((some c : Option ConversationTurn).toList) = [c] from rfl]
      rw [turnsUsers_append_single]
      rfl
    | none =>
      have he : walkEvent st e = st := by
        simp [walkEvent, h1, h2, h3, h4, h5, h6, hc]
      rw [he, hc]
  · have hucl : userContentsOfLog [e] = [] := by simp [userContentsOfLog, h2]
    rw [hucl, List.append_nil]
    have he : walkEvent st e = st := by
      simp [walkEvent, h1, h2, h3, h4, h5, h6]
    rw [he]

/-- Walking a log appends its non-blank user contents, in order, to the
turns' user contents. -/
theorem walk_users :
    ∀ (events : List SEvent) (st : WalkState),
      turnsUsers ((events.foldl walkEvent st).doneTurns ++
        (events.foldl walkEvent st).currentTurn.toList) =
      turnsUsers (st.doneTurns ++ st.currentTurn.toList) ++ userContentsOfLog events
  | [], st => by simp [userContentsOfLog]
  | e :: es, st => by
    rw [List.foldl_cons, walk_users es (walkEvent st e), walkEvent_users st e,
      List.append_assoc]
    congr 1
    rw [userContentsOfLog, userContentsOfLog, userContentsOfLog, ← List.filterMap_append,
      List.singleton_append]

/-- The user contents surviving the blank filter are the non-blank
user-role contents. -/
theorem userContents_filter :
    ∀ (msgs : List ChatMessage),
      userContentsOfMessages (msgs.filter (fun msg => jsTrim msg.content != "")) =
        userNB msgs
  | [] => rfl
  | m :: msgs => by
    have ih := userContents_filter msgs
    rw [List.filter_cons]
    by_cases hp : (jsTrim m.content != "") = true
    · have hb : jsTrim m.content ≠ "" := by simpa using hp
      rw [if_pos hp]
      by_cases hr : m.role = Role.user
      · have hcond : m.role = Role.user ∧ jsTrim m.content ≠ "" := ⟨hr, hb⟩
        simp only [userContentsOfMessages, userNB, List.filterMap_cons, if_pos hr,
          if_pos hcond]
        exact congrArg (fun l => m.content :: l) ih
      · have hcond : ¬ (m.role = Role.user ∧ jsTrim m.content ≠ "") := fun hx => hr hx.1
        simp only [userContentsOfMessages, userNB, List.filterMap_cons, if_neg hr,
          if_neg hcond]
        exact ih
    · have hb0 : jsTrim m.content = "" := by simpa using hp
      rw [if_neg hp]
      have hcond : ¬ (m.role = Role.user ∧ jsTrim m.content ≠ "") := fun hx => hx.2 hb0
      simp only [userNB, List.filterMap_cons, if_neg hcond]
      exact ih

/-- Assistant messages contribute no user-role contents. -/
theorem buildAssistant_users (o : Oracle) (svc : Option String) (t : ConversationTurn) :
    ∀ (l : List SEvent) (b : BuildState),
      userNB ((l.foldl (buildAssistant o svc t) b).messages) = userNB b.messages
  | [], _ => rfl
  | ae :: rest, b => by
    rw [List.foldl_cons, buildAssistant_users o svc t rest]
    simp only [buildAssistant]
    rw [userNB, List.filterMap_append]
    simp [userNB]

/-- One turn contributes exactly its non-blank user content. -/
theorem buildTurn_users (o : Oracle) (svc : Option String) (b : BuildState)
    (t : ConversationTurn) :
    userNB ((buildTurn o svc b t).messages) = userNB b.messages ++ (turnUser t).toList := by
  cases hu : t.userMessage with
  | some umsg =>
    simp only [buildTurn, hu]
    rw [buildAssistant_users]
    rw [userNB, List.filterMap_append]
    rw [turnUser, hu, Option.some_bind]
    simp only [List.filterMap_cons, List.filterMap_nil]
    by_cases hb : jsTrim (jsOrStr umsg.data.content "") = ""
    · simp [userNB, hb]
    · simp [userNB, hb]
  | none =>
    simp only [buildTurn, hu]
    rw [buildAssistant_users]
    simp [turnUser, hu]

/-- Folding turns accumulates exactly the turns' user contents. -/
theorem build_users (o : Oracle) (svc : Option String) :
    ∀ (turns : List ConversationTurn) (b : BuildState),
      userNB ((turns.foldl (buildTurn o svc) b).messages) =
        userNB b.messages ++ turnsUsers turns
  | [], _ => by simp [turnsUsers]
  | t :: rest, b => by
    rw [List.foldl_cons, build_users o svc rest, buildTurn_users, List.append_assoc]
    congr 1
    cases ht : turnUser t <;> simp [turnsUsers, List.filterMap_cons, ht]

/-! ### C8 -/

/-- C8 counterexample: a log with exactly one `user_message` event whose
content is empty reconstructs to a transcript with zero user messages:
the final blank filter removes it, so "exactly N" fails. -/
theorem c8_counterexample :
    (([um "" (some "m1")]).filter (fun e => e.type == "user.message")).length = 1 ∧
    userContentsOfMessages (resumeOr oracle0 none [um "" (some "m1")]) = [] := by
  decide

/-- C8 (amended): for every historical log, the user-role messages of
the reconstructed transcript are exactly the `user_message` events with
non-blank content, with their contents in original order (blank user
messages are removed by the final empty-content filter). -/
theorem c8_amended (o : Oracle) (svc : Option String) (events : List SEvent) :
    userContentsOfMessages (resumeOr o svc events) = userContentsOfLog events := by
  cases events with
  | nil => rfl
  | cons e es =>
    have hr : resumeOr o svc (e :: es) =
        ((walkTurns (if truthy e.data.selectedModel then e.data.selectedModel else none)
            (e :: es)).foldl (buildTurn o svc)
          { messages := [], lastUsedModel := none, k := 0 }).messages.filter
          (fun msg => jsTrim msg.content != "") := rfl
    rw [hr, userContents_filter, build_users]
    show userNB [] ++ turnsUsers (walkTurns _ (e :: es)) = _
    rw [walkTurns]
    rw [walk_users (e :: es)
      { doneTurns := [], currentTurn := none,
        currentSessionModel := if truthy e.data.selectedModel then e.data.selectedModel else none }]
    rfl

/-! ### C10 -/

/-- C10 counterexample: on the empty log the seeding step of
`resumeSession` reads `events[0].data` of an undefined element and the
reconstruction fails, contradicting "the seeding step never throws"
"including the empty log". -/
theorem c10_counterexample :
    resumeMessages oracle0 none [] =
      Except.error "TypeError: cannot read properties of undefined (reading data)" := by
  decide

/-- C10 (amended): for every NON-EMPTY historical log, reconstruction
does not fail, and the active model is seeded to the first event's
`selectedModel` field when that field is present and non-empty, and to
null otherwise. (On the empty log the seeding step throws.) -/
theorem c10_amended (o : Oracle) (svc : Option String) (e : SEvent) (es : List SEvent) :
    resumeMessages o svc (e :: es) = Except.ok (resumeOr o svc (e :: es)) ∧
    seedModel (e :: es) =
      Except.ok (match e.data.selectedModel with
        | some m => if m = "" then none else some m
        | none => none) := by
  constructor
  · simp [resumeMessages, seedModel, resumeOr]
  · cases h : e.data.selectedModel with
    | none => simp [seedModel, truthy, h]
    | some m =>
      by_cases hm : m = "" <;> simp [seedModel, truthy, h, hm]

/-! ### C7 -/

/-- C7 counterexample: an `error` event whose message is the empty
string is not surfaced verbatim; the fixed fallback text is posted
instead. -/
theorem c7_counterexample :
    (handleEvent 0 s0 (errorEv (some ""))).2 =
      [ServerMsg.error "An error occurred during AI processing", ServerMsg.generationComplete] ∧
    "An error occurred during AI processing" ≠ "" := by
  decide

/-- C7 (amended): for every `error` event received by the live
controller, a non-empty error message is surfaced to the UI verbatim
(an empty or missing one is replaced by a fixed fallback text), always
paired with a generation-complete signal in the same handling step; the
current open-message id is cleared and the webview leaves its
generating state. -/
theorem c7_amended (now : Nat) (s : ServiceState) (w : WebviewState) (e : SEvent)
    (h : e.type = "session.error") :
    liveStep now (s, w) e =
      (({ s with currentMessageId := none },
        { w with isGenerating := false, streamingMessageId := none }),
       [ServerMsg.error (match e.data.message with
          | some m => if m = "" then "An error occurred during AI processing" else m
          | none => "An error occurred during AI processing"),
        ServerMsg.generationComplete]) := by
  have hmsg : jsOrStr e.data.message "An error occurred during AI processing" =
      (match e.data.message with
        | some m => if m = "" then "An error occurred during AI processing" else m
        | none => "An error occurred during AI processing") := by
    cases hm : e.data.message with
    | none => simp [jsOrStr, truthy]
    | some m => by_cases hm2 : m = "" <;> simp [jsOrStr, truthy, jsS, hm2]
  simp [liveStep, handleEvent, h, hmsg, handleMessage]

/-- C7 witness: the amended theorem at a concrete error event. -/
theorem c7_amended_witness :
    liveStep 0 (s0, w0) (errorEv (some "boom")) =
      (({ s0 with currentMessageId := none },
        { w0 with isGenerating := false, streamingMessageId := none }),
       [ServerMsg.error "boom", ServerMsg.generationComplete]) := by
  have h := c7_amended 0 s0 w0 (errorEv (some "boom")) rfl
  simpa using h

/-! ### C9 -/

/-- C9: a `message_delta` arriving while no message is open (current
message id cleared) is dropped: the service and webview states are both
unchanged (no message content changes, nothing is reopened), the chunk
being posted with a null message id that matches no message. -/
theorem c9_delta_while_idle (now : Nat) (s : ServiceState) (w : WebviewState) (e : SEvent)
    (h1 : s.currentMessageId = none) (h2 : e.type = "assistant.message_delta") :
    liveStep now (s, w) e = ((s, w), [ServerMsg.streamChunk none e.data.deltaContent]) := by
  have hmap : w.messages.map (fun msg =>
      if some msg.id = (none : Option String) then
        { msg with content := jsAppendChunk msg.content e.data.deltaContent }
      else msg) = w.messages := by
    rw [List.map_congr_left (g := fun msg => msg) (fun a _ => by simp)]
    exact List.map_id w.messages
  simp [liveStep, handleEvent, h1, h2, handleMessage, hmap]

/-- C9 witness: a delta after idle leaves a concrete closed transcript
untouched. -/
theorem c9_delta_while_idle_witness :
    liveStep 0 ({ currentMessageId := none }, w0) (deltaEv "x") =
      ((({ currentMessageId := none } : ServiceState), w0),
       [ServerMsg.streamChunk none (some "x")]) := by
  have h := c9_delta_while_idle 0 { currentMessageId := none } w0 (deltaEv "x") rfl rfl
  simpa using h

/-! ### C1 -/

/-- C1 counterexample: with message `m1` open, streaming delta `"a"`
followed by a `message_complete` with full text `"XYZ"` leaves the
displayed text `"a"` (the delta concatenation), not `"XYZ"`: the webview
`streamEnd` handler only clears the streaming indicator and ignores the
authoritative full payload. -/
theorem c1_counterexample :
    contentOf (runLiveTrace oracle0 0 (s0, w0) [deltaEv "a", completeEv "XYZ"]).1.2 "m1" =
      some "a" ∧ (some "a" : Option String) ≠ some "XYZ" := by
  decide

/-- C1 (amended): after deltas `d1..dn` and a `message_complete` with
full text `T` for the same open message id, the message's displayed
text equals the prior text plus the concatenation `d1 ++ ... ++ dn`;
the `message_complete` payload `T` is posted to the webview but not
applied to the message text (it only ends the streaming indicator). -/
theorem c1_amended (o : Oracle) (i T : String) (ds : List String) :
    ∀ (k : Nat) (s : ServiceState) (w : WebviewState), s.currentMessageId = some i →
      contentOf (runLiveTrace o k (s, w) (ds.map deltaEv ++ [completeEv T])).1.2 i =
        (contentOf w i).map (fun c => c ++ strConcat ds) := by
  induction ds with
  | nil =>
    intro k s w h
    have hone : (runLiveTrace o k (s, w) [completeEv T]).1.2 =
        { w with streamingMessageId := none } := by
      simp [runLiveTrace, liveStep, handleEvent, completeEv, h, handleMessage]
    simp only [List.map_nil, List.nil_append, hone]
    have hco : contentOf { w with streamingMessageId := none } i = contentOf w i := rfl
    rw [hco]
    cases hx : contentOf w i <;> simp [strConcat]
  | cons d ds ih =>
    intro k s w h
    simp only [List.map_cons, List.cons_append, runLiveTrace]
    have hstep : liveStep (o.now k) (s, w) (deltaEv d) =
        ((s, handleMessage (o.now k) w (.streamChunk (some i) (some d))),
         [ServerMsg.streamChunk (some i) (some d)]) := by
      simp [liveStep, handleEvent, deltaEv, h]
    rw [hstep]
    have hih := ih (k + 1) s (handleMessage (o.now k) w (.streamChunk (some i) (some d))) h
    simp only [List.append_eq, hih, contentOf_chunk, Option.map_map]
    cases hx : contentOf w i <;> simp [strConcat, String.append_assoc]

/-- C1 witness: the amended theorem at a concrete stream. -/
theorem c1_amended_witness :
    contentOf (runLiveTrace oracle0 0 (s0, w0) (["a"].map deltaEv ++ [completeEv "XYZ"])).1.2 "m1" =
      (contentOf w0 "m1").map (fun c => c ++ strConcat ["a"]) :=
  c1_amended oracle0 "m1" "XYZ" ["a"] 0 s0 w0 rfl

/-! ### C2 -/

/-- C2 counterexample: in the log
`[user_message, model_changed(m2), assistant.message, user_message,
assistant.message]` seeded with `m1`, the first assistant reply sits
after the `model_changed` event, yet reconstruction attributes `m1` to
it (the open turn's model is snapshotted at the `user_message`), not
`m2` as the claim's general rule requires. -/
theorem c2_counterexample :
    (resumeOr oracle0 none
        [um "u1" (some "m1"), mcEv "m2", am "a1", um "u2", am "a2"]).map
      (fun m => (m.content, m.model)) =
      [("u1", none), ("a1", some "m1"), ("u2", none), ("a2", some "m2")] ∧
    (some "m1" : Option String) ≠ some "m2" := by
  decide

/-- C2 (amended): the concrete case holds as stated: for the log
`[user_message, assistant.message (model omitted), model_changed(m2),
user_message, assistant.message]` with seeded model `m1`, reconstruction
outputs exactly `[user, assistant model=m1, user, assistant model=m2]`.
In general a `model_changed` to `m2` applies to the turns STARTED after
it (at the next `user_message`); assistant replies of the turn already
open when it arrives keep that turn's previously active model. -/
theorem c2_amended (c1 a1 c2 a2 m1 m2 : String) (o : Oracle) (svc : Option String)
    (hm1 : m1 ≠ "") (hm2 : m2 ≠ "")
    (hc1 : jsTrim c1 ≠ "") (hc2 : jsTrim c2 ≠ "")
    (ha1 : jsTrim a1 ≠ "") (ha2 : jsTrim a2 ≠ "") :
    (resumeOr o svc [um c1 (some m1), am a1, mcEv m2, um c2, am a2]).map
        (fun m => (m.role, m.content, m.model)) =
      [(Role.user, c1, none), (Role.assistant, a1, some m1),
       (Role.user, c2, none), (Role.assistant, a2, some m2)] := by
  have hc1n := ne_empty_of_trim hc1
  have hc2n := ne_empty_of_trim hc2
  have ha1n := ne_empty_of_trim ha1
  have ha2n := ne_empty_of_trim ha2
  simp [resumeOr, resumeMessages, seedModel, um, am, mcEv, truthy, walkTurns, walkEvent,
        resumeBuild, buildTurn, buildAssistant, turnToolEvents, turnToolStep, jsOrStr, jsOrO, jsS, freshMsgId,
        hm1, hm2, hc1, hc2, ha1, ha2, hc1n, hc2n, ha1n, ha2n]

/-- C2 witness: the amended theorem at the spec's concrete strings. -/
theorem c2_amended_witness :
    (resumeOr oracle0 none
        [um "u1" (some "m1"), am "a1", mcEv "m2", um "u2", am "a2"]).map
      (fun m => (m.role, m.content, m.model)) =
      [(Role.user, "u1", none), (Role.assistant, "a1", some "m1"),
       (Role.user, "u2", none), (Role.assistant, "a2", some "m2")] :=
  c2_amended "u1" "a1" "u2" "a2" "m1" "m2" oracle0 none
    (by decide) (by decide) (by decide) (by decide) (by decide) (by decide)

/-! ### C4 -/

/-- C4 counterexample: within one turn a `usage` event reporting `mu`
followed by a `model_changed` to `m2` leaves the turn's model `mu`: a
`model_changed` arriving after a usage event in the same turn does NOT
determine that turn's model, contradicting the claim's last-write-wins
rule. -/
theorem c4_counterexample :
    (resumeOr oracle0 none
        [um "u1" (some "m1"), usageEv "mu", mcEv "m2", am "a1"]).map
      (fun m => (m.content, m.model)) =
      [("u1", none), ("a1", some "mu")] ∧
    (some "mu" : Option String) ≠ some "m2" := by
  decide

/-- C4 (amended): within a turn the `usage`-reported model always takes
precedence: a non-empty usage model sets the turn's active model even if
a `model_changed` follows in the same turn (`model_changed` only affects
turns started later); among repeated `usage` events in one turn the last
one wins. -/
theorem c4_amended (c1 a1 m1 mu mu2 m2 : String) (o : Oracle) (svc : Option String)
    (hm1 : m1 ≠ "") (hmu : mu ≠ "") (hmu2 : mu2 ≠ "")
    (hc1 : jsTrim c1 ≠ "") (ha1 : jsTrim a1 ≠ "") :
    (resumeOr o svc [um c1 (some m1), usageEv mu, mcEv m2, am a1]).map
        (fun m => (m.role, m.content, m.model)) =
      [(Role.user, c1, none), (Role.assistant, a1, some mu)] ∧
    (resumeOr o svc [um c1 (some m1), usageEv mu, usageEv mu2, am a1]).map
        (fun m => (m.role, m.content, m.model)) =
      [(Role.user, c1, none), (Role.assistant, a1, some mu2)] := by
  have hc1n := ne_empty_of_trim hc1
  have ha1n := ne_empty_of_trim ha1
  constructor
  · simp [resumeOr, resumeMessages, seedModel, um, am, mcEv, usageEv, truthy, walkTurns,
      walkEvent, resumeBuild, buildTurn, buildAssistant, turnToolEvents, turnToolStep, jsOrStr, jsOrO, jsS, freshMsgId,
      hm1, hmu, hc1, ha1, hc1n, ha1n]
  · simp [resumeOr, resumeMessages, seedModel, um, am, mcEv, usageEv, truthy, walkTurns,
      walkEvent, resumeBuild, buildTurn, buildAssistant, turnToolEvents, turnToolStep, jsOrStr, jsOrO, jsS, freshMsgId,
      hm1, hmu, hmu2, hc1, ha1, hc1n, ha1n]

/-- C4 witness: the amended theorem at concrete strings. -/
theorem c4_amended_witness :
    (resumeOr oracle0 none
        [um "u1" (some "m1"), usageEv "mu", mcEv "m2", am "a1"]).map
      (fun m => (m.role, m.content, m.model)) =
      [(Role.user, "u1", none), (Role.assistant, "a1", some "mu")] :=
  (c4_amended "u1" "a1" "m1" "mu" "mux" "m2" oracle0 none
    (by decide) (by decide) (by decide) (by decide) (by decide)).1

end Copilot
